import Mathlib

/-!
# learn-chaincode: the `finished/chaincode_finished.go` chaincode

A shallow embedding of the chaincode (`Init`, `Invoke`, `Query`, `write`, `read`)
over an explicit model of the ledger stub it talks to, together with the part of
Go's `unicode/utf8` and `encoding/json` packages that the chaincode exercises.

Conventions of the embedding

* A Go `byte` is a natural number below 256; a Go `string` is the list of its bytes
  (Go strings are arbitrary byte sequences, not necessarily well-formed UTF-8).
* A Go `[]byte` is `Option (List Nat)`: `none` is the `nil` slice.
* A Go slice `[]DataEntry` is `Option (List DataEntry)`: `none` is the `nil` slice.
* A Go `error` is `Option GoError`: `none` is the `nil` error.
* `fmt.Println` output is diagnostic only and is not modelled.
-/

namespace Chaincode

/-! ## Basic Go values -/

/-- The bytes of a string literal of the source (all of them are ASCII). -/
def ascii (s : String) : List Nat := s.data.map Char.toNat

/-- A Go error value, identified by its message (`errors.New(msg)`). -/
structure GoError where
  msg : List Nat
  deriving DecidableEq, Repr

/-- The source's `errors.New`. -/
def errorsNew (msg : List Nat) : GoError := ⟨msg⟩

/-- The struct `DataEntry` of the source: three string fields. -/
structure DataEntry where
  PlaceId : List Nat
  Temperature : List Nat
  Timestamp : List Nat
  deriving DecidableEq, Repr

/-- A Go slice `[]DataEntry`; `none` is the nil slice. -/
abbrev Entries := Option (List DataEntry)

/-- Go's builtin `append(s, e)` on a `[]DataEntry`. -/
def Entries.append (s : Entries) (e : DataEntry) : Entries :=
  match s with
  | none => some [e]
  | some l => some (l ++ [e])

/-- Go's builtin `len(s)` on a `[]DataEntry`. -/
def Entries.len (s : Entries) : Nat :=
  match s with
  | none => 0
  | some l => l.length

/-! ## `unicode/utf8` -/

/-- The constant `utf8.RuneError` (U+FFFD). -/
def RuneError : Nat := 0xFFFD

/-- The table `first` of `unicode/utf8`: information about the first byte of an
encoding (`as = 0xF0` ASCII, `xx = 0xF1` invalid, otherwise size in the low bits
and the index of the accept range in the high bits). -/
def first (p0 : Nat) : Nat :=
  if p0 < 0x80 then 0xF0
  else if p0 < 0xC2 then 0xF1
  else if p0 < 0xE0 then 0x02
  else if p0 = 0xE0 then 0x13
  else if p0 < 0xED then 0x03
  else if p0 = 0xED then 0x23
  else if p0 < 0xF0 then 0x03
  else if p0 = 0xF0 then 0x34
  else if p0 < 0xF4 then 0x04
  else if p0 = 0xF4 then 0x44
  else 0xF1

/-- The table `acceptRanges` of `unicode/utf8`: the range allowed for the second byte. -/
def acceptRanges (i : Nat) : Nat × Nat :=
  if i = 0 then (0x80, 0xBF)
  else if i = 1 then (0xA0, 0xBF)
  else if i = 2 then (0x80, 0x9F)
  else if i = 3 then (0x90, 0xBF)
  else if i = 4 then (0x80, 0x8F)
  else (0, 0)

/-- The function `utf8.DecodeRune` (and `DecodeRuneInString`): the first rune of `p`
and its width in bytes; `(RuneError, 1)` on an ill-formed encoding. The masks and
shifts of the source are written with `%` and `*`. -/
def DecodeRune (p : List Nat) : Nat × Nat :=
  match p with
  | [] => (RuneError, 0)
  | p0 :: t0 =>
    let x := first p0
    if x ≥ 0xF0 then
      (if x = 0xF0 then p0 else RuneError, 1)
    else
      let sz := x % 8
      let accept := acceptRanges (x / 16)
      if p.length < sz then (RuneError, 1)
      else
        match t0 with
        | [] => (RuneError, 1)
        | b1 :: t1 =>
          if b1 < accept.1 ∨ accept.2 < b1 then (RuneError, 1)
          else if sz ≤ 2 then ((p0 % 32) * 64 + b1 % 64, 2)
          else
            match t1 with
            | [] => (RuneError, 1)
            | b2 :: t2 =>
              if b2 < 0x80 ∨ 0xBF < b2 then (RuneError, 1)
              else if sz ≤ 3 then ((p0 % 16) * 4096 + (b1 % 64) * 64 + b2 % 64, 3)
              else
                match t2 with
                | [] => (RuneError, 1)
                | b3 :: _ =>
                  if b3 < 0x80 ∨ 0xBF < b3 then (RuneError, 1)
                  else ((p0 % 8) * 262144 + (b1 % 64) * 4096 + (b2 % 64) * 64 + b3 % 64, 4)

/-- The function `utf8.EncodeRune`: the UTF-8 encoding of a rune; surrogates and
values above `MaxRune` are encoded as `RuneError`. -/
def EncodeRune (r : Nat) : List Nat :=
  if r ≤ 0x7F then [r]
  else if r ≤ 0x7FF then [0xC0 + r / 64, 0x80 + r % 64]
  else if r > 0x10FFFF ∨ (0xD800 ≤ r ∧ r ≤ 0xDFFF) then [0xEF, 0xBF, 0xBD]
  else if r ≤ 0xFFFF then [0xE0 + r / 4096, 0x80 + (r / 64) % 64, 0x80 + r % 64]
  else [0xF0 + r / 262144, 0x80 + (r / 4096) % 64, 0x80 + (r / 64) % 64, 0x80 + r % 64]

/-- The function `utf8.Valid`: every step of `DecodeRune` over `p` yields a
well-formed encoding. The fuel bounds the number of steps (one per rune). -/
def utf8ValidAux : Nat → List Nat → Bool
  | _, [] => true
  | 0, _ :: _ => false
  | fuel + 1, b :: t =>
    let d := DecodeRune (b :: t)
    if d.1 = RuneError ∧ d.2 = 1 then false
    else utf8ValidAux fuel ((b :: t).drop d.2)

/-- Well-formed UTF-8 (`utf8.Valid`). -/
def utf8Valid (p : List Nat) : Bool := utf8ValidAux p.length p

/-! ## `encoding/json`: marshalling -/

/-- The digit table `hex = "0123456789abcdef"` of `encoding/json`. -/
def hex (n : Nat) : Nat := if n < 10 then 0x30 + n else 0x57 + n

/-- The table `htmlSafeSet` of `encoding/json`: ASCII bytes written without escaping. -/
def htmlSafeSet (b : Nat) : Bool :=
  decide (0x20 ≤ b ∧ b < 0x80 ∧ b ≠ 0x22 ∧ b ≠ 0x5C ∧ b ≠ 0x3C ∧ b ≠ 0x3E ∧ b ≠ 0x26)

/-- One round of the loop of `encodeState.string` with HTML escaping on (what
`json.Marshal` uses), at the byte `b` followed by `t`: the bytes written for the
next byte or rune of the Go string, and the part of the string left to encode.
Control bytes other than `\n`, `\r`, `\t` are written as `\u00XX` (Go releases from
1.22 on write `\b` and `\f` for two of them; the decoder reads both forms). -/
def encodeStep (b : Nat) (t : List Nat) : List Nat × List Nat :=
  if b < 0x80 then
    if htmlSafeSet b then ([b], t)
    else if b = 0x5C ∨ b = 0x22 then ([0x5C, b], t)
    else if b = 0x0A then ([0x5C, 0x6E], t)
    else if b = 0x0D then ([0x5C, 0x72], t)
    else if b = 0x09 then ([0x5C, 0x74], t)
    else ([0x5C, 0x75, 0x30, 0x30, hex (b / 16), hex (b % 16)], t)
  else
    let d := DecodeRune (b :: t)
    if d.1 = RuneError ∧ d.2 = 1 then (ascii "\\ufffd", t)
    else if d.1 = 0x2028 ∨ d.1 = 0x2029 then
      (ascii "\\u202" ++ [hex (d.1 % 16)], (b :: t).drop d.2)
    else ((b :: t).take d.2, (b :: t).drop d.2)

/-- The loop of `encodeState.string`: the body of the JSON string literal for the
Go string `s`. -/
def encodeStringAux : Nat → List Nat → List Nat
  | _, [] => []
  | 0, _ :: _ => []
  | fuel + 1, b :: t => (encodeStep b t).1 ++ encodeStringAux fuel (encodeStep b t).2

/-- The JSON string literal `encodeState.string` writes for the Go string `s`. -/
def encodeString (s : List Nat) : List Nat :=
  0x22 :: encodeStringAux s.length s ++ [0x22]

/-- The JSON object written for one `DataEntry`: the three fields under their
`json:"..."` tags, in declaration order. -/
def encodeEntry (e : DataEntry) : List Nat :=
  ascii "\x7b\"placeid\":" ++ encodeString e.PlaceId ++
  ascii ",\"temperature\":" ++ encodeString e.Temperature ++
  ascii ",\"timestamp\":" ++ encodeString e.Timestamp ++ ascii "\x7d"

/-- The elements of a JSON array, separated by commas. -/
def encodeElems : List DataEntry → List Nat
  | [] => []
  | [e] => encodeEntry e
  | e :: e2 :: es => encodeEntry e ++ 0x2C :: encodeElems (e2 :: es)

/-- The function `json.Marshal` on a `[]DataEntry`: `null` for the nil slice, a JSON
array otherwise. Its error result is always nil for this type. -/
def Marshal (entries : Entries) : List Nat :=
  match entries with
  | none => ascii "null"
  | some l => 0x5B :: encodeElems l ++ [0x5D]

/-! ## `encoding/json`: unmarshalling

The decoder of `encoding/json` for a target of type `*[]DataEntry`, on the JSON
texts made of `null`, arrays, objects whose keys are exactly the three field tags,
and string values, with insignificant white space anywhere. Every other input is
answered with `none`: either Go reports an error there (`SyntaxError`,
`UnmarshalTypeError`) or the input is outside the part of the decoder modelled here
(numbers, booleans, nested values, `null` elements, keys that match a tag only up
to case). Go first scans a literal to its closing quote and then unquotes it; the
two passes are fused here, which gives the same result because a quote or a
backslash is never a UTF-8 continuation byte. -/

/-- The function `isSpace` of the scanner. -/
def isSpace (c : Nat) : Bool := decide (c = 0x20 ∨ c = 0x09 ∨ c = 0x0D ∨ c = 0x0A)

/-- Skip insignificant white space. -/
def skipSpace : List Nat → List Nat
  | [] => []
  | c :: t => if isSpace c then skipSpace t else c :: t

/-- The value of one hexadecimal digit, if it is one. -/
def hexVal (c : Nat) : Option Nat :=
  if 0x30 ≤ c ∧ c ≤ 0x39 then some (c - 0x30)
  else if 0x61 ≤ c ∧ c ≤ 0x66 then some (c - 0x61 + 10)
  else if 0x41 ≤ c ∧ c ≤ 0x46 then some (c - 0x41 + 10)
  else none

/-- The function `getu4`: the number written by the escape `\uXXXX` at the head of
`s`, with the input after it; `none` when there is no such escape. -/
def getu4 (s : List Nat) : Option (Nat × List Nat) :=
  match s with
  | c0 :: c1 :: h1 :: h2 :: h3 :: h4 :: t =>
    if c0 = 0x5C ∧ c1 = 0x75 then
      match hexVal h1, hexVal h2, hexVal h3, hexVal h4 with
      | some a, some b, some c, some d => some (a * 4096 + b * 256 + c * 16 + d, t)
      | _, _, _, _ => none
    else none
  | _ => none

/-- The function `utf16.IsSurrogate`. -/
def IsSurrogate (r : Nat) : Bool := decide (0xD800 ≤ r ∧ r < 0xE000)

/-- The function `utf16.DecodeRune`: the code point of a surrogate pair, or the
replacement character when the pair is not valid. -/
def DecodeRune16 (r1 r2 : Nat) : Nat :=
  if 0xD800 ≤ r1 ∧ r1 < 0xDC00 ∧ 0xDC00 ≤ r2 ∧ r2 < 0xE000 then
    (r1 - 0xD800) * 1024 + (r2 - 0xDC00) + 0x10000
  else RuneError

/-- One round of the loop of `unquote`, at the byte `c` followed by `t` (`c` is not
the closing quote): the bytes denoted by the next escape, byte or rune of the
literal, and the input after it. Bytes outside ASCII are coerced to well-formed
UTF-8 by `DecodeRune` followed by `EncodeRune`. -/
def unquoteStep (c : Nat) (t : List Nat) : Option (List Nat × List Nat) :=
  if c = 0x5C then
    match t with
    | [] => none
    | e :: t1 =>
      if e = 0x22 ∨ e = 0x5C ∨ e = 0x2F then some ([e], t1)
      else if e = 0x62 then some ([0x08], t1)
      else if e = 0x66 then some ([0x0C], t1)
      else if e = 0x6E then some ([0x0A], t1)
      else if e = 0x72 then some ([0x0D], t1)
      else if e = 0x74 then some ([0x09], t1)
      else if e = 0x75 then
        match getu4 (c :: t) with
        | none => none
        | some (rr, t2) =>
          if IsSurrogate rr then
            match getu4 t2 with
            | some (rr1, t3) =>
              if DecodeRune16 rr rr1 ≠ RuneError then some (EncodeRune (DecodeRune16 rr rr1), t3)
              else some (EncodeRune RuneError, t2)
            | none => some (EncodeRune RuneError, t2)
          else some (EncodeRune rr, t2)
      else none
  else if c < 0x20 then none
  else if c < 0x80 then some ([c], t)
  else some (EncodeRune (DecodeRune (c :: t)).1, (c :: t).drop (DecodeRune (c :: t)).2)

/-- The body of a string literal, from just after the opening quote: the Go string
it denotes (`unquote`) and the input after the closing quote. -/
def unquoteAux : Nat → List Nat → Option (List Nat × List Nat)
  | _, [] => none
  | 0, _ :: _ => none
  | fuel + 1, c :: t =>
    if c = 0x22 then some ([], t)
    else
      match unquoteStep c t with
      | none => none
      | some (w, t1) => (unquoteAux fuel t1).map (fun r => (w ++ r.1, r.2))

/-- A string literal at the head of the input: the Go string and the input after it. -/
def parseString (s : List Nat) : Option (List Nat × List Nat) :=
  match s with
  | [] => none
  | c :: t => if c = 0x22 then unquoteAux t.length t else none

/-- Store a string value under the key of an object member: the field whose
`json` tag is the key. -/
def setField (e : DataEntry) (key val : List Nat) : Option DataEntry :=
  if key = ascii "placeid" then some { e with PlaceId := val }
  else if key = ascii "temperature" then some { e with Temperature := val }
  else if key = ascii "timestamp" then some { e with Timestamp := val }
  else none

/-- The members of an object, from the first key on, stored into `e` one after the
other, up to the closing brace. -/
def parseMembers : Nat → DataEntry → List Nat → Option (DataEntry × List Nat)
  | 0, _, _ => none
  | fuel + 1, e, s =>
    match parseString s with
    | none => none
    | some (key, s1) =>
      match skipSpace s1 with
      | [] => none
      | c :: s2 =>
        if c = 0x3A then
          match parseString (skipSpace s2) with
          | none => none
          | some (val, s3) =>
            match setField e key val with
            | none => none
            | some e1 =>
              match skipSpace s3 with
              | [] => none
              | c1 :: s4 =>
                if c1 = 0x2C then parseMembers fuel e1 (skipSpace s4)
                else if c1 = 0x7D then some (e1, s4)
                else none
        else none

/-- An object at the head of the input, decoded into a zero `DataEntry`. -/
def parseObject (s : List Nat) : Option (DataEntry × List Nat) :=
  match s with
  | [] => none
  | c :: t =>
    if c = 0x7B then
      match skipSpace t with
      | [] => none
      | c1 :: t1 =>
        if c1 = 0x7D then some (⟨[], [], []⟩, t1)
        else parseMembers (c1 :: t1).length ⟨[], [], []⟩ (c1 :: t1)
    else none

/-- The elements of an array, from the first element on, appended to `acc`, up to
the closing bracket. -/
def parseElems : Nat → List DataEntry → List Nat → Option (List DataEntry × List Nat)
  | 0, _, _ => none
  | fuel + 1, acc, s =>
    match parseObject s with
    | none => none
    | some (e, s1) =>
      match skipSpace s1 with
      | [] => none
      | c :: s2 =>
        if c = 0x2C then parseElems fuel (acc ++ [e]) (skipSpace s2)
        else if c = 0x5D then some (acc ++ [e], s2)
        else none

/-- The value at the head of the input, for a `[]DataEntry` target that is nil:
`null` leaves the nil slice, an array gives a non-nil slice of its elements. -/
def parseValue (s : List Nat) : Option (Entries × List Nat) :=
  match s with
  | [] => none
  | c :: t =>
    if c = 0x5B then
      match skipSpace t with
      | [] => none
      | c1 :: t1 =>
        if c1 = 0x5D then some (some [], t1)
        else (parseElems (c1 :: t1).length [] (c1 :: t1)).map (fun r => (some r.1, r.2))
    else if (ascii "null").isPrefixOf (c :: t) then some (none, (c :: t).drop 4)
    else none

/-- The call `json.Unmarshal(data, &c)` for a fresh `var c []DataEntry`: the slice
`c` afterwards when the call returns a nil error, `none` otherwise. -/
def Unmarshal (data : List Nat) : Option Entries :=
  match parseValue (skipSpace data) with
  | none => none
  | some (c, rest) => if skipSpace rest = [] then some c else none

/-- What `json.Unmarshal(data, v)` leaves in the caller when `v` is a `[]DataEntry`
passed by value, as `write` passes it. The target is not a pointer, so the call
stores nothing and returns an error: Go passes the slice header by value and the
callee cannot change the caller's variable. The result is the caller's slice after
the call together with the returned error (an `InvalidUnmarshalError`, whose
message is kept here, or a `SyntaxError` when `data` is not JSON; `write` drops the
error either way). -/
def UnmarshalByValue (_data : List Nat) (v : Entries) : Entries × Option GoError :=
  (v, some (errorsNew (ascii "json: Unmarshal(non-pointer []main.DataEntry)")))

/-! ## The ledger stub (`shim.ChaincodeStub`) -/

/-- One call made to the stub. -/
inductive StubCall where
  | get (key : List Nat)
  | put (key : List Nat) (value : List Nat)
  deriving DecidableEq, Repr

/-- The state behind `*shim.ChaincodeStub`: the key-value world state, the failures
the ledger answers with (whether a get on a key, or a put of a value on a key, fails
and with which error; this is part of the state and no chaincode call changes it),
and the trace of the calls made so far (oldest first). `state k = none` is an absent
key, for which `GetState` returns nil bytes and a nil error. -/
structure ChaincodeStub where
  state : List Nat → Option (List Nat)
  getErr : List Nat → Option GoError
  putErr : List Nat → List Nat → Option GoError
  trace : List StubCall

/-- The call `stub.GetState(key)`: the bytes, the error, and the stub afterwards. -/
def GetState (stub : ChaincodeStub) (key : List Nat) :
    Option (List Nat) × Option GoError × ChaincodeStub :=
  let stub1 := { stub with trace := stub.trace ++ [StubCall.get key] }
  match stub.getErr key with
  | some e => (none, some e, stub1)
  | none => (stub.state key, none, stub1)

/-- The call `stub.PutState(key, value)`: the error and the stub afterwards. A failed
put leaves the world state as it was (the ledger's single-key put is atomic). -/
def PutState (stub : ChaincodeStub) (key : List Nat) (value : List Nat) :
    Option GoError × ChaincodeStub :=
  let stub1 := { stub with trace := stub.trace ++ [StubCall.put key value] }
  match stub.putErr key value with
  | some e => (some e, stub1)
  | none =>
    (none, { stub1 with state := fun k => if k = key then some value else stub.state k })

/-- The number of `GetState` calls in a trace. -/
def countGets (tr : List StubCall) : Nat :=
  (tr.filter (fun c => match c with | StubCall.get _ => true | StubCall.put _ _ => false)).length

/-- The number of `PutState` calls in a trace. -/
def countPuts (tr : List StubCall) : Nat :=
  (tr.filter (fun c => match c with | StubCall.get _ => false | StubCall.put _ _ => true)).length

/-! ## The chaincode -/

/-- The result of an entry point, `([]byte, error)`, and the stub afterwards. -/
structure Response where
  payload : Option (List Nat)
  err : Option GoError
  stub : ChaincodeStub

/-- The method `Init` of the source. -/
def Init (stub : ChaincodeStub) (_function : List Nat) (args : List (List Nat)) : Response :=
  match args with
  | [a0] =>
    match PutState stub (ascii "hello_world") a0 with
    | (some e, stub1) => ⟨none, some e, stub1⟩
    | (none, stub1) => ⟨none, none, stub1⟩
  | _ => ⟨none, some (errorsNew (ascii "Incorrect number of arguments. Expecting 1")), stub⟩

/-- The method `write` of the source. The slice `entries` starts as nil and is handed
to `json.Unmarshal` by value. -/
def write (stub : ChaincodeStub) (args : List (List Nat)) : Response :=
  let entries : Entries := none
  match args with
  | [productid, placeid, temperature, timestamp] =>
    match GetState stub productid with
    | (_, some e, stub1) => ⟨none, some e, stub1⟩
    | (dataAsBytes, none, stub1) =>
      let entries1 : Entries :=
        match dataAsBytes with
        | some data => (UnmarshalByValue data entries).1
        | none => entries
      let new_entry : DataEntry :=
        { PlaceId := placeid, Temperature := temperature, Timestamp := timestamp }
      let entries2 := entries1.append new_entry
      let new_json := Marshal entries2
      match PutState stub1 productid new_json with
      | (some e, stub2) => ⟨none, some e, stub2⟩
      | (none, stub2) => ⟨none, none, stub2⟩
  | _ =>
    ⟨none, some (errorsNew (ascii
      "Incorrect number of arguments. Expecting 4. Product id, place id, temperature, and taime stamp.")),
      stub⟩

/-- The method `read` of the source. -/
def read (stub : ChaincodeStub) (args : List (List Nat)) : Response :=
  match args with
  | [productid] =>
    match GetState stub productid with
    | (_, some _, stub1) =>
      let jsonResp := ascii "\x7b\"Error\":\"Failed to get state for " ++ productid ++ ascii "\"\x7d"
      ⟨none, some (errorsNew jsonResp), stub1⟩
    | (valAsbytes, none, stub1) => ⟨valAsbytes, none, stub1⟩
  | _ =>
    ⟨none, some (errorsNew (ascii "Incorrect number of arguments. Expecting productid to query")),
      stub⟩

/-- The method `Invoke` of the source. -/
def Invoke (stub : ChaincodeStub) (function : List Nat) (args : List (List Nat)) : Response :=
  if function = ascii "init" then Init stub (ascii "init") args
  else if function = ascii "write" then write stub args
  else ⟨none, some (errorsNew (ascii "Received unknown function invocation")), stub⟩

/-- The method `Query` of the source. -/
def Query (stub : ChaincodeStub) (function : List Nat) (args : List (List Nat)) : Response :=
  if function = ascii "read" then read stub args
  else ⟨none, some (errorsNew (ascii "Received unknown function query")), stub⟩

/-! ## The error kinds of the specification

The source has no error types: a kind is recognised by the message. -/

/-- The error is an arity failure (`InvalidArguments`). -/
def isInvalidArguments (e : GoError) : Bool :=
  (ascii "Incorrect number of arguments.").isPrefixOf e.msg

/-- The error is an unknown-operation failure (`UnknownOperation`). -/
def isUnknownOperation (e : GoError) : Bool :=
  (ascii "Received unknown function ").isPrefixOf e.msg

/-! ## Vocabulary of the statements -/

/-- A rejection of the given kind made before any stub call: no payload, an error
of that kind, and the stub (world state, failures and trace of calls) exactly as it
was, so neither a get nor a put has been made. -/
def RejectedUntouched (kind : GoError → Bool) (stub : ChaincodeStub) (r : Response) : Prop :=
  r.payload = none ∧ (∃ e, r.err = some e ∧ kind e = true) ∧ r.stub = stub

/-- The three strings of an entry are well-formed UTF-8. -/
def entryValid (e : DataEntry) : Bool :=
  utf8Valid e.PlaceId && utf8Valid e.Temperature && utf8Valid e.Timestamp

/-- Every string in the collection is well-formed UTF-8. -/
def entriesValid (c : Entries) : Bool :=
  match c with
  | none => true
  | some l => l.all entryValid

/-- The bytes are exactly one JSON string literal: the decoder reads a string and
nothing is left. -/
def isStringLiteral (s : List Nat) : Bool :=
  match parseString s with
  | some (_, []) => true
  | _ => false

/-- A ledger with no keys, on which every call succeeds, and an empty trace. -/
def freshStub : ChaincodeStub := ⟨fun _ => none, fun _ => none, fun _ _ => none, []⟩

/-- The error a failing ledger answers with in the examples. -/
def ledgerDown : GoError := errorsNew (ascii "ledger unavailable")

/-- A ledger on which every get fails. -/
def getFailStub : ChaincodeStub := ⟨fun _ => none, fun _ => some ledgerDown, fun _ _ => none, []⟩

/-- A ledger on which every put fails. -/
def putFailStub : ChaincodeStub := ⟨fun _ => none, fun _ => none, fun _ _ => some ledgerDown, []⟩

/-! # Theorems -/

set_option maxRecDepth 100000

/-! ## `unicode/utf8`: decoding and encoding a well-formed rune -/

theorem first_of_ge (b : Nat) (hb : 0x80 ≤ b) :
    (first b = 0xF1) ∨ (0xC2 ≤ b ∧ b < 0xE0 ∧ first b = 0x02) ∨
    (b = 0xE0 ∧ first b = 0x13) ∨ (0xE1 ≤ b ∧ b < 0xF0 ∧ b ≠ 0xED ∧ first b = 0x03) ∨
    (b = 0xED ∧ first b = 0x23) ∨
    (b = 0xF0 ∧ first b = 0x34) ∨ (0xF1 ≤ b ∧ b < 0xF4 ∧ first b = 0x04) ∨
    (b = 0xF4 ∧ first b = 0x44) := by
  unfold first
  by_cases h1 : b < 0xC2
  · left; rw [if_neg (by omega), if_pos h1]
  by_cases h2 : b < 0xE0
  · right; left; refine ⟨by omega, h2, ?_⟩; rw [if_neg (by omega), if_neg h1, if_pos h2]
  by_cases h3 : b = 0xE0
  · right; right; left; subst h3; exact ⟨rfl, by decide⟩
  by_cases h4 : b < 0xED
  · right; right; right; left
    refine ⟨by omega, by omega, by omega, ?_⟩
    rw [if_neg (by omega), if_neg h1, if_neg h2, if_neg h3, if_pos h4]
  by_cases h5 : b = 0xED
  · right; right; right; right; left; subst h5; exact ⟨rfl, by decide⟩
  by_cases h6 : b < 0xF0
  · right; right; right; left
    refine ⟨by omega, by omega, by omega, ?_⟩
    rw [if_neg (by omega), if_neg h1, if_neg h2, if_neg h3, if_neg h4, if_neg h5, if_pos h6]
  by_cases h7 : b = 0xF0
  · right; right; right; right; right; left; subst h7; exact ⟨rfl, by decide⟩
  by_cases h8 : b < 0xF4
  · right; right; right; right; right; right; left
    refine ⟨by omega, by omega, ?_⟩
    rw [if_neg (by omega), if_neg h1, if_neg h2, if_neg h3, if_neg h4, if_neg h5, if_neg h6,
      if_neg h7, if_pos h8]
  by_cases h9 : b = 0xF4
  · right; right; right; right; right; right; right; subst h9; exact ⟨rfl, by decide⟩
  · left
    rw [if_neg (by omega), if_neg h1, if_neg h2, if_neg h3, if_neg h4, if_neg h5, if_neg h6,
      if_neg h7, if_neg h8, if_neg h9]

/-- A first byte marked invalid decodes to `RuneError` of width one. -/
theorem DecodeRune_invalid (b : Nat) (t : List Nat) (hx : first b = 0xF1) :
    DecodeRune (b :: t) = (RuneError, 1) := by
  simp [DecodeRune, hx]

/-- The function `DecodeRune` on a first byte of a two-byte encoding. -/
theorem DecodeRune_two (b : Nat) (t : List Nat) (hx : first b = 0x02) :
    DecodeRune (b :: t) =
      match t with
      | [] => (RuneError, 1)
      | b1 :: _ =>
        if b1 < 0x80 ∨ 0xBF < b1 then (RuneError, 1) else ((b % 32) * 64 + b1 % 64, 2) := by
  cases t <;> simp [DecodeRune, hx, acceptRanges]

/-- The function `DecodeRune` on a first byte of a three-byte encoding. -/
theorem DecodeRune_three (b : Nat) (t : List Nat) (x : Nat) (hx : first b = x)
    (hs : x = 0x13 ∨ x = 0x03 ∨ x = 0x23) :
    DecodeRune (b :: t) =
      match t with
      | b1 :: b2 :: _ =>
        if b1 < (acceptRanges (x / 16)).1 ∨ (acceptRanges (x / 16)).2 < b1 then (RuneError, 1)
        else if b2 < 0x80 ∨ 0xBF < b2 then (RuneError, 1)
        else ((b % 16) * 4096 + (b1 % 64) * 64 + b2 % 64, 3)
      | _ => (RuneError, 1) := by
  rcases hs with rfl | rfl | rfl <;> rcases t with _ | ⟨b1, _ | ⟨b2, t2⟩⟩ <;>
    simp [DecodeRune, hx, acceptRanges]

/-- The function `DecodeRune` on a first byte of a four-byte encoding. -/
theorem DecodeRune_four (b : Nat) (t : List Nat) (x : Nat) (hx : first b = x)
    (hs : x = 0x34 ∨ x = 0x04 ∨ x = 0x44) :
    DecodeRune (b :: t) =
      match t with
      | b1 :: b2 :: b3 :: _ =>
        if b1 < (acceptRanges (x / 16)).1 ∨ (acceptRanges (x / 16)).2 < b1 then (RuneError, 1)
        else if b2 < 0x80 ∨ 0xBF < b2 then (RuneError, 1)
        else if b3 < 0x80 ∨ 0xBF < b3 then (RuneError, 1)
        else ((b % 8) * 262144 + (b1 % 64) * 4096 + (b2 % 64) * 64 + b3 % 64, 4)
      | _ => (RuneError, 1) := by
  rcases hs with rfl | rfl | rfl <;> rcases t with _ | ⟨b1, _ | ⟨b2, _ | ⟨b3, t3⟩⟩⟩ <;>
    simp [DecodeRune, hx, acceptRanges]

/-- Encoding the rune of a well-formed two-byte encoding gives the two bytes. -/
theorem EncodeRune_two (b b1 : Nat) (h1 : 0xC2 ≤ b) (h2 : b < 0xE0) (h3 : 0x80 ≤ b1)
    (h4 : b1 ≤ 0xBF) : EncodeRune ((b % 32) * 64 + b1 % 64) = [b, b1] := by
  unfold EncodeRune
  rw [if_neg (by omega), if_pos (by omega)]
  congr 1
  · omega
  · congr 1; omega

/-- Encoding the rune of a well-formed three-byte encoding gives the three bytes. -/
theorem EncodeRune_three (b b1 b2 : Nat) (h1 : 0xE0 ≤ b) (h2 : b < 0xF0) (h3 : 0x80 ≤ b1)
    (h4 : b1 ≤ 0xBF) (h5 : 0x80 ≤ b2) (h6 : b2 ≤ 0xBF) (hlo : b = 0xE0 → 0xA0 ≤ b1)
    (hhi : b = 0xED → b1 ≤ 0x9F) :
    EncodeRune ((b % 16) * 4096 + (b1 % 64) * 64 + b2 % 64) = [b, b1, b2] := by
  unfold EncodeRune
  rw [if_neg (by omega), if_neg (by omega), if_neg (by omega), if_pos (by omega)]
  congr 1
  · omega
  · congr 1
    · omega
    · congr 1; omega

/-- Encoding the rune of a well-formed four-byte encoding gives the four bytes. -/
theorem EncodeRune_four (b b1 b2 b3 : Nat) (h1 : 0xF0 ≤ b) (h2 : b ≤ 0xF4) (h3 : 0x80 ≤ b1)
    (h4 : b1 ≤ 0xBF) (h5 : 0x80 ≤ b2) (h6 : b2 ≤ 0xBF) (h7 : 0x80 ≤ b3) (h8 : b3 ≤ 0xBF)
    (hlo : b = 0xF0 → 0x90 ≤ b1) (hhi : b = 0xF4 → b1 ≤ 0x8F) :
    EncodeRune ((b % 8) * 262144 + (b1 % 64) * 4096 + (b2 % 64) * 64 + b3 % 64)
      = [b, b1, b2, b3] := by
  unfold EncodeRune
  rw [if_neg (by omega), if_neg (by omega), if_neg (by omega), if_neg (by omega)]
  congr 1
  · omega
  · congr 1
    · omega
    · congr 1
      · omega
      · congr 1; omega

/-- A decoded two-byte rune: its encoding is the bytes read, and the decoding
looks at those bytes only. -/
theorem wellformed_two (b : Nat) (t : List Nat) (h1 : 0xC2 ≤ b) (h2 : b < 0xE0)
    (hx : first b = 0x02)
    (h : ¬((DecodeRune (b :: t)).1 = RuneError ∧ (DecodeRune (b :: t)).2 = 1)) :
    EncodeRune (DecodeRune (b :: t)).1 = (b :: t).take (DecodeRune (b :: t)).2 ∧
    (∀ q, DecodeRune ((b :: t).take (DecodeRune (b :: t)).2 ++ q) = DecodeRune (b :: t)) ∧
    2 ≤ (DecodeRune (b :: t)).2 ∧ (DecodeRune (b :: t)).2 ≤ (b :: t).length := by
  rcases t with _ | ⟨b1, t1⟩
  · rw [DecodeRune_two b [] hx] at h; simp at h
  · have hd := DecodeRune_two b (b1 :: t1) hx
    simp only [] at hd
    by_cases hb1 : b1 < 0x80 ∨ 0xBF < b1
    · rw [hd, if_pos hb1] at h; simp at h
    · rw [if_neg hb1] at hd
      rw [hd]
      refine ⟨?_, ?_, by simp, by simp⟩
      · simpa using EncodeRune_two b b1 h1 h2 (by omega) (by omega)
      · intro q
        have := DecodeRune_two b (b1 :: q) hx
        simp only [if_neg hb1] at this
        simpa using this

/-- A decoded three-byte rune: its encoding is the bytes read, and the decoding
looks at those bytes only. -/
theorem wellformed_three (b : Nat) (t : List Nat) (x : Nat) (h1 : 0xE0 ≤ b) (h2 : b < 0xF0)
    (hx : first b = x) (hs : x = 0x13 ∨ x = 0x03 ∨ x = 0x23)
    (hlo : b = 0xE0 → (acceptRanges (x / 16)).1 = 0xA0)
    (hhi : b = 0xED → (acceptRanges (x / 16)).2 = 0x9F)
    (hlo2 : 0x80 ≤ (acceptRanges (x / 16)).1) (hhi2 : (acceptRanges (x / 16)).2 ≤ 0xBF)
    (h : ¬((DecodeRune (b :: t)).1 = RuneError ∧ (DecodeRune (b :: t)).2 = 1)) :
    EncodeRune (DecodeRune (b :: t)).1 = (b :: t).take (DecodeRune (b :: t)).2 ∧
    (∀ q, DecodeRune ((b :: t).take (DecodeRune (b :: t)).2 ++ q) = DecodeRune (b :: t)) ∧
    2 ≤ (DecodeRune (b :: t)).2 ∧ (DecodeRune (b :: t)).2 ≤ (b :: t).length := by
  have hd := DecodeRune_three b t x hx hs
  rcases t with _ | ⟨b1, _ | ⟨b2, t2⟩⟩
  · rw [hd] at h; simp at h
  · rw [hd] at h; simp at h
  · simp only [] at hd
    by_cases hb1 : b1 < (acceptRanges (x / 16)).1 ∨ (acceptRanges (x / 16)).2 < b1
    · rw [hd, if_pos hb1] at h; simp at h
    · rw [if_neg hb1] at hd
      by_cases hb2 : b2 < 0x80 ∨ 0xBF < b2
      · rw [hd, if_pos hb2] at h; simp at h
      · rw [if_neg hb2] at hd
        rw [hd]
        refine ⟨?_, ?_, by simp, by simp⟩
        · simpa using EncodeRune_three b b1 b2 h1 h2 (by omega) (by omega) (by omega) (by omega)
            (fun e => by have := hlo e; omega) (fun e => by have := hhi e; omega)
        · intro q
          have := DecodeRune_three b (b1 :: b2 :: q) x hx hs
          simp only [if_neg hb1, if_neg hb2] at this
          simpa using this

/-- A decoded four-byte rune: its encoding is the bytes read, and the decoding
looks at those bytes only. -/
theorem wellformed_four (b : Nat) (t : List Nat) (x : Nat) (h1 : 0xF0 ≤ b) (h2 : b ≤ 0xF4)
    (hx : first b = x) (hs : x = 0x34 ∨ x = 0x04 ∨ x = 0x44)
    (hlo : b = 0xF0 → (acceptRanges (x / 16)).1 = 0x90)
    (hhi : b = 0xF4 → (acceptRanges (x / 16)).2 = 0x8F)
    (hlo2 : 0x80 ≤ (acceptRanges (x / 16)).1) (hhi2 : (acceptRanges (x / 16)).2 ≤ 0xBF)
    (h : ¬((DecodeRune (b :: t)).1 = RuneError ∧ (DecodeRune (b :: t)).2 = 1)) :
    EncodeRune (DecodeRune (b :: t)).1 = (b :: t).take (DecodeRune (b :: t)).2 ∧
    (∀ q, DecodeRune ((b :: t).take (DecodeRune (b :: t)).2 ++ q) = DecodeRune (b :: t)) ∧
    2 ≤ (DecodeRune (b :: t)).2 ∧ (DecodeRune (b :: t)).2 ≤ (b :: t).length := by
  have hd := DecodeRune_four b t x hx hs
  rcases t with _ | ⟨b1, _ | ⟨b2, _ | ⟨b3, t3⟩⟩⟩
  · rw [hd] at h; simp at h
  · rw [hd] at h; simp at h
  · rw [hd] at h; simp at h
  · simp only [] at hd
    by_cases hb1 : b1 < (acceptRanges (x / 16)).1 ∨ (acceptRanges (x / 16)).2 < b1
    · rw [hd, if_pos hb1] at h; simp at h
    · rw [if_neg hb1] at hd
      by_cases hb2 : b2 < 0x80 ∨ 0xBF < b2
      · rw [hd, if_pos hb2] at h; simp at h
      · rw [if_neg hb2] at hd
        by_cases hb3 : b3 < 0x80 ∨ 0xBF < b3
        · rw [hd, if_pos hb3] at h; simp at h
        · rw [if_neg hb3] at hd
          rw [hd]
          refine ⟨?_, ?_, by simp, by simp⟩
          · simpa using EncodeRune_four b b1 b2 b3 h1 h2 (by omega) (by omega) (by omega)
              (by omega) (by omega) (by omega)
              (fun e => by have := hlo e; omega) (fun e => by have := hhi e; omega)
          · intro q
            have := DecodeRune_four b (b1 :: b2 :: b3 :: q) x hx hs
            simp only [if_neg hb1, if_neg hb2, if_neg hb3] at this
            simpa using this

/-- A rune decoded without error from a byte outside ASCII: `EncodeRune` gives back
exactly the bytes read, the decoding depends on those bytes only, and the width is
between two and the length of the input. -/
theorem DecodeRune_wellformed (b : Nat) (t : List Nat) (hb : 0x80 ≤ b)
    (h : ¬((DecodeRune (b :: t)).1 = RuneError ∧ (DecodeRune (b :: t)).2 = 1)) :
    EncodeRune (DecodeRune (b :: t)).1 = (b :: t).take (DecodeRune (b :: t)).2 ∧
    (∀ q, DecodeRune ((b :: t).take (DecodeRune (b :: t)).2 ++ q) = DecodeRune (b :: t)) ∧
    2 ≤ (DecodeRune (b :: t)).2 ∧ (DecodeRune (b :: t)).2 ≤ (b :: t).length := by
  rcases first_of_ge b hb with hx | ⟨h1, h2, hx⟩ | ⟨h1, hx⟩ | ⟨h1, h2, h3, hx⟩ | ⟨h1, hx⟩ |
    ⟨h1, hx⟩ | ⟨h1, h2, hx⟩ | ⟨h1, hx⟩
  · rw [DecodeRune_invalid b t hx] at h; simp at h
  · exact wellformed_two b t h1 h2 hx h
  · refine wellformed_three b t _ (by omega) (by omega) hx (Or.inl rfl) ?_ ?_ ?_ ?_ h <;>
      (simp [acceptRanges]; try omega)
  · refine wellformed_three b t _ (by omega) (by omega) hx (Or.inr (Or.inl rfl)) ?_ ?_ ?_ ?_ h <;>
      (simp [acceptRanges]; try omega)
  · refine wellformed_three b t _ (by omega) (by omega) hx (Or.inr (Or.inr rfl)) ?_ ?_ ?_ ?_ h <;>
      (simp [acceptRanges]; try omega)
  · refine wellformed_four b t _ (by omega) (by omega) hx (Or.inl rfl) ?_ ?_ ?_ ?_ h <;>
      (simp [acceptRanges]; try omega)
  · refine wellformed_four b t _ (by omega) (by omega) hx (Or.inr (Or.inl rfl)) ?_ ?_ ?_ ?_ h <;>
      (simp [acceptRanges]; try omega)
  · refine wellformed_four b t _ (by omega) (by omega) hx (Or.inr (Or.inr rfl)) ?_ ?_ ?_ ?_ h <;>
      (simp [acceptRanges]; try omega)

/-! ## The codec on one string -/

theorem hexVal_hex (n : Nat) (h : n < 16) : hexVal (hex n) = some n := by
  unfold hex hexVal
  by_cases h1 : n < 10
  · rw [if_pos h1, if_pos (by omega)]; congr 1; omega
  · rw [if_neg h1, if_neg (by omega), if_pos (by omega)]; congr 1; omega

/-- An ASCII byte decodes to itself, of width one. -/
theorem DecodeRune_ascii (b : Nat) (t : List Nat) (h : b < 0x80) :
    DecodeRune (b :: t) = (b, 1) := by
  have hf : first b = 0xF0 := by unfold first; rw [if_pos h]
  simp [DecodeRune, hf]

/-- One round of the decoder undoes one round of the encoder on a well-formed rune:
the encoder writes a non-empty chunk that does not start with a quote, and the
decoder reads that chunk back as the bytes of the rune. -/
theorem unquoteStep_encodeStep (b : Nat) (t : List Nat)
    (hv : ¬((DecodeRune (b :: t)).1 = RuneError ∧ (DecodeRune (b :: t)).2 = 1)) :
    ∃ c t0, (encodeStep b t).1 = c :: t0 ∧ c ≠ 0x22 ∧
      (∀ q, unquoteStep c (t0 ++ q) = some ((b :: t).take (DecodeRune (b :: t)).2, q)) ∧
      (encodeStep b t).2 = (b :: t).drop (DecodeRune (b :: t)).2 := by
  by_cases hb : b < 0x80
  · rw [DecodeRune_ascii b t hb]
    unfold encodeStep
    rw [if_pos hb]
    by_cases h1 : htmlSafeSet b = true
    · rw [if_pos h1]
      simp only [htmlSafeSet, decide_eq_true_eq] at h1
      refine ⟨b, [], rfl, h1.2.2.1, ?_, rfl⟩
      intro q
      unfold unquoteStep
      rw [if_neg h1.2.2.2.1, if_neg (by omega), if_pos hb]
      simp
    · rw [if_neg h1]
      by_cases h2 : b = 0x5C ∨ b = 0x22
      · rw [if_pos h2]
        refine ⟨0x5C, [b], rfl, by decide, ?_, rfl⟩
        intro q
        rcases h2 with rfl | rfl <;> simp [unquoteStep]
      · rw [if_neg h2]
        by_cases h3 : b = 0x0A
        · subst h3
          exact ⟨0x5C, [0x6E], rfl, by decide, fun q => by simp [unquoteStep], rfl⟩
        rw [if_neg h3]
        by_cases h4 : b = 0x0D
        · subst h4
          exact ⟨0x5C, [0x72], rfl, by decide, fun q => by simp [unquoteStep], rfl⟩
        rw [if_neg h4]
        by_cases h5 : b = 0x09
        · subst h5
          exact ⟨0x5C, [0x74], rfl, by decide, fun q => by simp [unquoteStep], rfl⟩
        rw [if_neg h5]
        refine ⟨0x5C, [0x75, 0x30, 0x30, hex (b / 16), hex (b % 16)], rfl, by decide, ?_, rfl⟩
        intro q
        have e0 : hexVal 0x30 = some 0 := by decide
        have e3 := hexVal_hex (b / 16) (by omega)
        have e4 := hexVal_hex (b % 16) (by omega)
        have hval : b / 16 * 16 + b % 16 = b := by omega
        have hs : IsSurrogate b = false := by
          simp only [IsSurrogate, decide_eq_false_iff_not]; omega
        have hen : EncodeRune b = [b] := by unfold EncodeRune; rw [if_pos (by omega)]
        simp [unquoteStep, getu4, e0, e3, e4, hval, hs, hen]
  · have hb2 : 0x80 ≤ b := by omega
    obtain ⟨hE, hD, h2, hlen⟩ := DecodeRune_wellformed b t hb2 hv
    unfold encodeStep
    rw [if_neg hb]
    simp only [if_neg hv]
    have htake : ∃ t', (b :: t).take (DecodeRune (b :: t)).2 = b :: t' := by
      obtain ⟨n, hn⟩ : ∃ n, (DecodeRune (b :: t)).2 = n + 1 :=
        ⟨(DecodeRune (b :: t)).2 - 1, by omega⟩
      rw [hn]; exact ⟨t.take n, rfl⟩
    have hdrop : ∀ q,
        ((b :: t).take (DecodeRune (b :: t)).2 ++ q).drop (DecodeRune (b :: t)).2 = q := by
      intro q
      have hl : ((b :: t).take (DecodeRune (b :: t)).2).length = (DecodeRune (b :: t)).2 := by
        rw [List.length_take]; omega
      have := List.drop_left ((b :: t).take (DecodeRune (b :: t)).2) q
      rwa [hl] at this
    by_cases hu : (DecodeRune (b :: t)).1 = 0x2028 ∨ (DecodeRune (b :: t)).1 = 0x2029
    · rw [if_pos hu]
      refine ⟨0x5C, [0x75, 0x32, 0x30, 0x32, hex ((DecodeRune (b :: t)).1 % 16)],
        by simp [ascii], by decide, ?_, rfl⟩
      intro q
      have e2 : hexVal 0x32 = some 2 := by decide
      have e0 : hexVal 0x30 = some 0 := by decide
      have e4 := hexVal_hex ((DecodeRune (b :: t)).1 % 16) (by omega)
      have hval : 2 * 4096 + 2 * 16 + (DecodeRune (b :: t)).1 % 16 = (DecodeRune (b :: t)).1 := by
        omega
      have hs : IsSurrogate (DecodeRune (b :: t)).1 = false := by
        simp only [IsSurrogate, decide_eq_false_iff_not]; omega
      simp [unquoteStep, getu4, e0, e2, e4, hval, hs, hE]
    · rw [if_neg hu]
      obtain ⟨t', ht'⟩ := htake
      refine ⟨b, t', ht', by omega, ?_, rfl⟩
      intro q
      have hcons : b :: (t' ++ q) = (b :: t).take (DecodeRune (b :: t)).2 ++ q := by
        rw [ht']; rfl
      unfold unquoteStep
      rw [if_neg (by omega), if_neg (by omega), if_neg (by omega), hcons, hD q, hE, hdrop q]

/-- The decoder reads back the body the encoder writes for a well-formed UTF-8
string, given fuel above the length of the body. -/
theorem unquoteAux_encodeStringAux (n : Nat) :
    ∀ s : List Nat, utf8ValidAux n s = true → ∀ (fuel : Nat) (rest : List Nat),
      (encodeStringAux n s).length < fuel →
      unquoteAux fuel (encodeStringAux n s ++ 0x22 :: rest) = some (s, rest) := by
  induction n with
  | zero =>
    intro s hv fuel rest hf
    cases s with
    | nil =>
      obtain ⟨f, rfl⟩ : ∃ f, fuel = f + 1 := ⟨fuel - 1, by omega⟩
      simp [encodeStringAux, unquoteAux]
    | cons b t => simp [utf8ValidAux] at hv
  | succ n ih =>
    intro s hv fuel rest hf
    cases s with
    | nil =>
      obtain ⟨f, rfl⟩ : ∃ f, fuel = f + 1 := ⟨fuel - 1, by omega⟩
      simp [encodeStringAux, unquoteAux]
    | cons b t =>
      rw [utf8ValidAux] at hv
      by_cases hne : (DecodeRune (b :: t)).1 = RuneError ∧ (DecodeRune (b :: t)).2 = 1
      · rw [if_pos hne] at hv; exact absurd hv (by simp)
      rw [if_neg hne] at hv
      obtain ⟨c, t0, hout, hc, hstep, hrest⟩ := unquoteStep_encodeStep b t hne
      rw [encodeStringAux] at hf ⊢
      rw [hout, hrest] at hf ⊢
      obtain ⟨f, rfl⟩ : ∃ f, fuel = f + 1 := ⟨fuel - 1, by omega⟩
      have hlen : (encodeStringAux n ((b :: t).drop (DecodeRune (b :: t)).2)).length < f := by
        simp only [List.length_append, List.length_cons] at hf; omega
      have := ih _ hv f rest hlen
      rw [List.cons_append, List.cons_append, List.append_assoc, unquoteAux, if_neg hc, hstep]
      simp only [this, Option.map_some']
      rw [List.take_append_drop]

/-- A string literal written by the encoder is read back by the decoder. -/
theorem parseString_encodeString (s rest : List Nat) (hv : utf8Valid s = true) :
    parseString (encodeString s ++ rest) = some (s, rest) := by
  have h := unquoteAux_encodeStringAux s.length s hv
    (encodeStringAux s.length s ++ 0x22 :: rest).length rest (by simp)
  simpa [parseString, encodeString] using h

/-- Nothing is skipped in front of a byte that is not white space. -/
theorem skipSpace_cons (c : Nat) (t : List Nat) (h : isSpace c = false) :
    skipSpace (c :: t) = c :: t := by
  simp [skipSpace, h]

/-- Nothing is skipped in front of a string literal. -/
theorem skipSpace_encodeString (s rest : List Nat) :
    skipSpace (encodeString s ++ rest) = encodeString s ++ rest := by
  simp [encodeString, skipSpace, isSpace]

/-- One member `key:value` written by the encoder, read by the decoder. -/
theorem parseMembers_member (fuel : Nat) (e : DataEntry) (key val rest : List Nat)
    (hk : utf8Valid key = true) (hv : utf8Valid val = true) :
    parseMembers (fuel + 1) e (encodeString key ++ 0x3A :: (encodeString val ++ rest)) =
      match setField e key val with
      | none => none
      | some e1 =>
        match skipSpace rest with
        | [] => none
        | c1 :: s4 =>
          if c1 = 0x2C then parseMembers fuel e1 (skipSpace s4)
          else if c1 = 0x7D then some (e1, s4)
          else none := by
  rw [parseMembers, parseString_encodeString key _ hk]
  simp only [skipSpace_cons 0x3A _ (by decide), if_true, skipSpace_encodeString,
    parseString_encodeString val _ hv]

/-! ## The codec on entries and collections -/

/-- The text of an entry, laid out as the decoder reads it. -/
theorem encodeEntry_append (e : DataEntry) (rest : List Nat) :
    encodeEntry e ++ rest =
      0x7B :: (encodeString (ascii "placeid") ++ 0x3A :: (encodeString e.PlaceId ++
        0x2C :: (encodeString (ascii "temperature") ++ 0x3A :: (encodeString e.Temperature ++
        0x2C :: (encodeString (ascii "timestamp") ++ 0x3A :: (encodeString e.Timestamp ++
        0x7D :: rest)))))) := by
  have h1 : ascii "\x7b\"placeid\":" = 0x7B :: (encodeString (ascii "placeid") ++ [0x3A]) := by
    decide
  have h2 : ascii ",\"temperature\":" = 0x2C :: (encodeString (ascii "temperature") ++ [0x3A]) := by
    decide
  have h3 : ascii ",\"timestamp\":" = 0x2C :: (encodeString (ascii "timestamp") ++ [0x3A]) := by
    decide
  have h4 : ascii "\x7d" = [0x7D] := by decide
  simp only [encodeEntry, h1, h2, h3, h4, List.append_assoc, List.cons_append, List.nil_append]

/-- A string literal has at least its two quotes. -/
theorem encodeString_length (s : List Nat) : 2 ≤ (encodeString s).length := by
  simp [encodeString]

/-- A string literal starts with a quote. -/
theorem encodeString_head (s : List Nat) : ∃ t, encodeString s = 0x22 :: t :=
  ⟨_, rfl⟩

/-- The three members of an entry, written by the encoder, read by the decoder. -/
theorem parseMembers_entry (f : Nat) (e : DataEntry) (rest : List Nat)
    (hv : entryValid e = true) :
    parseMembers (f + 3) ⟨[], [], []⟩
      (encodeString (ascii "placeid") ++ 0x3A :: (encodeString e.PlaceId ++
        0x2C :: (encodeString (ascii "temperature") ++ 0x3A :: (encodeString e.Temperature ++
        0x2C :: (encodeString (ascii "timestamp") ++ 0x3A :: (encodeString e.Timestamp ++
        0x7D :: rest)))))) = some (e, rest) := by
  simp only [entryValid, Bool.and_eq_true] at hv
  obtain ⟨⟨hp, ht⟩, hs⟩ := hv
  have k1 : utf8Valid (ascii "placeid") = true := by decide
  have k2 : utf8Valid (ascii "temperature") = true := by decide
  have k3 : utf8Valid (ascii "timestamp") = true := by decide
  have s1 : ∀ e0 : DataEntry, setField e0 (ascii "placeid") e.PlaceId
      = some { e0 with PlaceId := e.PlaceId } := by
    intro e0; simp [setField]
  have s2 : ∀ e0 : DataEntry, setField e0 (ascii "temperature") e.Temperature
      = some { e0 with Temperature := e.Temperature } := by
    intro e0
    have : ascii "temperature" ≠ ascii "placeid" := by decide
    simp [setField, this]
  have s3 : ∀ e0 : DataEntry, setField e0 (ascii "timestamp") e.Timestamp
      = some { e0 with Timestamp := e.Timestamp } := by
    intro e0
    have h1 : ascii "timestamp" ≠ ascii "placeid" := by decide
    have h2 : ascii "timestamp" ≠ ascii "temperature" := by decide
    simp [setField, h1, h2]
  rw [parseMembers_member (f + 2) _ _ _ _ k1 hp, s1]
  simp only [skipSpace_cons 0x2C _ (by decide), if_true, skipSpace_encodeString]
  rw [parseMembers_member (f + 1) _ _ _ _ k2 ht, s2]
  simp only [skipSpace_cons 0x2C _ (by decide), if_true, skipSpace_encodeString]
  rw [parseMembers_member f _ _ _ _ k3 hs, s3]
  simp [skipSpace_cons 0x7D _ (by decide)]

/-- An object written by the encoder for an entry with well-formed strings is read
back by the decoder as that entry. -/
theorem parseObject_encodeEntry (e : DataEntry) (rest : List Nat) (hv : entryValid e = true) :
    parseObject (encodeEntry e ++ rest) = some (e, rest) := by
  rw [encodeEntry_append]
  have hm := fun f => parseMembers_entry f e rest hv
  generalize hbody : encodeString (ascii "placeid") ++ 0x3A :: (encodeString e.PlaceId ++
        0x2C :: (encodeString (ascii "temperature") ++ 0x3A :: (encodeString e.Temperature ++
        0x2C :: (encodeString (ascii "timestamp") ++ 0x3A :: (encodeString e.Timestamp ++
        0x7D :: rest))))) = body at hm ⊢
  have hlen : 3 ≤ body.length := by
    have := encodeString_length (ascii "placeid")
    rw [← hbody]; simp only [List.length_append, List.length_cons]; omega
  obtain ⟨t1, ht1⟩ : ∃ t1, body = 0x22 :: t1 := by
    obtain ⟨t, ht⟩ := encodeString_head (ascii "placeid")
    rw [← hbody, ht]; exact ⟨_, rfl⟩
  obtain ⟨f, hf⟩ : ∃ f, body.length = f + 3 := ⟨body.length - 3, by omega⟩
  have hpo : parseObject (0x7B :: body) = parseMembers body.length ⟨[], [], []⟩ body := by
    rw [ht1]; simp [parseObject, skipSpace, isSpace]
  rw [hpo, hf, hm f]

/-- The text of a non-empty list of elements starts with an opening brace. -/
theorem encodeElems_head (e : DataEntry) (es : List DataEntry) :
    ∃ t, encodeElems (e :: es) = 0x7B :: t := by
  have h := encodeEntry_append e []
  rw [List.append_nil] at h
  cases es with
  | nil => exact ⟨_, by rw [encodeElems, h]⟩
  | cons e2 es => exact ⟨_, by rw [encodeElems, h]; rfl⟩

/-- The text of the elements has at least one byte per element. -/
theorem encodeElems_length (l : List DataEntry) : l.length ≤ (encodeElems l).length := by
  induction l with
  | nil => simp
  | cons e es ih =>
    obtain ⟨t, ht⟩ := encodeElems_head e []
    have he : 1 ≤ (encodeEntry e).length := by
      rw [encodeElems] at ht; rw [ht]; simp
    cases es with
    | nil => simpa [encodeElems] using he
    | cons e2 es =>
      rw [encodeElems]
      simp only [List.length_append, List.length_cons] at ih ⊢
      omega

/-- The elements of an array written by the encoder, read back by the decoder. -/
theorem parseElems_encodeElems (l : List DataEntry) :
    l ≠ [] → (∀ e ∈ l, entryValid e = true) → ∀ (fuel : Nat) (acc : List DataEntry)
      (rest : List Nat), l.length ≤ fuel →
      parseElems fuel acc (encodeElems l ++ 0x5D :: rest) = some (acc ++ l, rest) := by
  induction l with
  | nil => intro h; exact absurd rfl h
  | cons e es ih =>
    intro _ hv fuel acc rest hf
    obtain ⟨f, rfl⟩ : ∃ f, fuel = f + 1 := ⟨fuel - 1, by simp at hf; omega⟩
    have he : entryValid e = true := hv e (List.mem_cons_self _ _)
    cases es with
    | nil =>
      rw [encodeElems, parseElems, parseObject_encodeEntry e _ he]
      simp [skipSpace_cons 0x5D _ (by decide)]
    | cons e2 es =>
      obtain ⟨t, ht⟩ := encodeElems_head e2 es
      have hsk : skipSpace (encodeElems (e2 :: es) ++ 0x5D :: rest)
          = encodeElems (e2 :: es) ++ 0x5D :: rest := by
        rw [ht]; exact skipSpace_cons _ _ (by decide)
      have := ih (by simp) (fun x hx => hv x (List.mem_cons_of_mem _ hx)) f (acc ++ [e]) rest
        (by simp at hf ⊢; omega)
      rw [encodeElems, List.append_assoc, List.cons_append, parseElems,
        parseObject_encodeEntry e _ he]
      simp only [skipSpace_cons 0x2C _ (by decide), if_true, hsk, this]
      simp

/-- The codec round-trips on collections whose strings are well-formed UTF-8. -/
theorem Unmarshal_Marshal (c : Entries) (hv : entriesValid c = true) :
    Unmarshal (Marshal c) = some c := by
  cases c with
  | none => decide
  | some l =>
    cases l with
    | nil => decide
    | cons e es =>
      have hall : ∀ x ∈ e :: es, entryValid x = true := by
        simpa [entriesValid] using hv
      obtain ⟨t, ht⟩ := encodeElems_head e es
      have hp := parseElems_encodeElems (e :: es) (by simp) hall
        (encodeElems (e :: es) ++ [0x5D]).length [] []
        (by have := encodeElems_length (e :: es); simp only [List.length_append]; omega)
      have hs1 : skipSpace (Marshal (some (e :: es))) = 0x5B :: (encodeElems (e :: es) ++ [0x5D]) := by
        simp [Marshal, skipSpace, isSpace]
      have hs2 : skipSpace (encodeElems (e :: es) ++ [0x5D]) = encodeElems (e :: es) ++ [0x5D] := by
        rw [ht]; exact skipSpace_cons _ _ (by decide)
      rw [Unmarshal, hs1, parseValue]
      simp only [if_true, hs2]
      rw [ht] at hp ⊢
      simp only [List.cons_append] at hp ⊢
      rw [if_neg (by decide), hp]
      simp [skipSpace]

/-! ## The text written by `Marshal` always decodes -/

/-- One round of the decoder reads what one round of the encoder writes, whatever
the bytes of the Go string are: the chunk is non-empty, does not start with a quote,
and denotes some bytes. -/
theorem unquoteStep_encodeStep_defined (b : Nat) (t : List Nat) :
    ∃ c t0 w, (encodeStep b t).1 = c :: t0 ∧ c ≠ 0x22 ∧
      ∀ q, unquoteStep c (t0 ++ q) = some (w, q) := by
  by_cases hv : (DecodeRune (b :: t)).1 = RuneError ∧ (DecodeRune (b :: t)).2 = 1
  · have hb : ¬ b < 0x80 := by
      intro hb
      rw [DecodeRune_ascii b t hb] at hv
      simp only [RuneError] at hv
      omega
    refine ⟨0x5C, [0x75, 0x66, 0x66, 0x66, 0x64], EncodeRune RuneError, ?_, by decide, ?_⟩
    · unfold encodeStep
      rw [if_neg hb]
      simp only [if_pos hv]
      decide
    · intro q
      have e1 : hexVal 0x66 = some 15 := by decide
      have e2 : hexVal 0x64 = some 13 := by decide
      have hs : IsSurrogate 0xFFFD = false := by decide
      simp [unquoteStep, getu4, e1, e2, hs, RuneError]
  · obtain ⟨c, t0, h1, h2, h3, _⟩ := unquoteStep_encodeStep b t hv
    exact ⟨c, t0, _, h1, h2, h3⟩

/-- The decoder reads the body the encoder writes for any Go string, given fuel above
the length of the body. -/
theorem unquoteAux_encodeStringAux_defined (n : Nat) :
    ∀ s : List Nat, ∃ w, ∀ (fuel : Nat) (rest : List Nat),
      (encodeStringAux n s).length < fuel →
      unquoteAux fuel (encodeStringAux n s ++ 0x22 :: rest) = some (w, rest) := by
  have hnil : ∀ (l : List Nat), l = [] → ∃ w : List Nat, ∀ (fuel : Nat) (rest : List Nat),
      l.length < fuel → unquoteAux fuel (l ++ 0x22 :: rest) = some (w, rest) := by
    intro l hl
    subst hl
    refine ⟨[], ?_⟩
    intro fuel rest hf
    obtain ⟨f, rfl⟩ : ∃ f, fuel = f + 1 := ⟨fuel - 1, by simp at hf; omega⟩
    simp [unquoteAux]
  induction n with
  | zero =>
    intro s
    apply hnil
    cases s <;> rfl
  | succ n ih =>
    intro s
    cases s with
    | nil => exact hnil _ rfl
    | cons b t =>
      obtain ⟨c, t0, w0, hout, hc, hstep⟩ := unquoteStep_encodeStep_defined b t
      obtain ⟨w1, hw1⟩ := ih (encodeStep b t).2
      refine ⟨w0 ++ w1, ?_⟩
      intro fuel rest hf
      rw [encodeStringAux] at hf ⊢
      rw [hout] at hf ⊢
      obtain ⟨f, rfl⟩ : ∃ f, fuel = f + 1 := ⟨fuel - 1, by omega⟩
      have hlen : (encodeStringAux n (encodeStep b t).2).length < f := by
        simp only [List.length_append, List.length_cons] at hf; omega
      rw [List.cons_append, List.cons_append, List.append_assoc, unquoteAux, if_neg hc, hstep]
      simp only [hw1 f rest hlen, Option.map_some']

/-- Every string literal written by the encoder is read by the decoder. -/
theorem parseString_encodeString_defined (s : List Nat) :
    ∃ w, ∀ rest, parseString (encodeString s ++ rest) = some (w, rest) := by
  obtain ⟨w, hw⟩ := unquoteAux_encodeStringAux_defined s.length s
  refine ⟨w, fun rest => ?_⟩
  have h := hw (encodeStringAux s.length s ++ 0x22 :: rest).length rest (by simp)
  simpa [parseString, encodeString] using h

/-- One member `key:value` written by the encoder, read by the decoder, for a value
the decoder reads as `w`. -/
theorem parseMembers_member_defined (fuel : Nat) (e : DataEntry) (key val w rest : List Nat)
    (hk : utf8Valid key = true)
    (hw : ∀ r, parseString (encodeString val ++ r) = some (w, r)) :
    parseMembers (fuel + 1) e (encodeString key ++ 0x3A :: (encodeString val ++ rest)) =
      match setField e key w with
      | none => none
      | some e1 =>
        match skipSpace rest with
        | [] => none
        | c1 :: s4 =>
          if c1 = 0x2C then parseMembers fuel e1 (skipSpace s4)
          else if c1 = 0x7D then some (e1, s4)
          else none := by
  rw [parseMembers, parseString_encodeString key _ hk]
  simp only [skipSpace_cons 0x3A _ (by decide), if_true, skipSpace_encodeString, hw]

/-- An object written by the encoder for any entry is read by the decoder as some
entry. -/
theorem parseObject_encodeEntry_defined (e : DataEntry) :
    ∃ e1 : DataEntry, ∀ rest, parseObject (encodeEntry e ++ rest) = some (e1, rest) := by
  obtain ⟨w1, hw1⟩ := parseString_encodeString_defined e.PlaceId
  obtain ⟨w2, hw2⟩ := parseString_encodeString_defined e.Temperature
  obtain ⟨w3, hw3⟩ := parseString_encodeString_defined e.Timestamp
  refine ⟨⟨w1, w2, w3⟩, fun rest => ?_⟩
  have k1 : utf8Valid (ascii "placeid") = true := by decide
  have k2 : utf8Valid (ascii "temperature") = true := by decide
  have k3 : utf8Valid (ascii "timestamp") = true := by decide
  have s1 : ∀ e0 : DataEntry, setField e0 (ascii "placeid") w1
      = some { e0 with PlaceId := w1 } := by
    intro e0; simp [setField]
  have s2 : ∀ e0 : DataEntry, setField e0 (ascii "temperature") w2
      = some { e0 with Temperature := w2 } := by
    intro e0
    have : ascii "temperature" ≠ ascii "placeid" := by decide
    simp [setField, this]
  have s3 : ∀ e0 : DataEntry, setField e0 (ascii "timestamp") w3
      = some { e0 with Timestamp := w3 } := by
    intro e0
    have h1 : ascii "timestamp" ≠ ascii "placeid" := by decide
    have h2 : ascii "timestamp" ≠ ascii "temperature" := by decide
    simp [setField, h1, h2]
  have hm : ∀ f, parseMembers (f + 3) ⟨[], [], []⟩
      (encodeString (ascii "placeid") ++ 0x3A :: (encodeString e.PlaceId ++
        0x2C :: (encodeString (ascii "temperature") ++ 0x3A :: (encodeString e.Temperature ++
        0x2C :: (encodeString (ascii "timestamp") ++ 0x3A :: (encodeString e.Timestamp ++
        0x7D :: rest)))))) = some (⟨w1, w2, w3⟩, rest) := by
    intro f
    rw [parseMembers_member_defined (f + 2) _ _ _ w1 _ k1 hw1, s1]
    simp only [skipSpace_cons 0x2C _ (by decide), if_true, skipSpace_encodeString]
    rw [parseMembers_member_defined (f + 1) _ _ _ w2 _ k2 hw2, s2]
    simp only [skipSpace_cons 0x2C _ (by decide), if_true, skipSpace_encodeString]
    rw [parseMembers_member_defined f _ _ _ w3 _ k3 hw3, s3]
    simp [skipSpace_cons 0x7D _ (by decide)]
  rw [encodeEntry_append]
  generalize hbody : encodeString (ascii "placeid") ++ 0x3A :: (encodeString e.PlaceId ++
        0x2C :: (encodeString (ascii "temperature") ++ 0x3A :: (encodeString e.Temperature ++
        0x2C :: (encodeString (ascii "timestamp") ++ 0x3A :: (encodeString e.Timestamp ++
        0x7D :: rest))))) = body at hm ⊢
  have hlen : 3 ≤ body.length := by
    have := encodeString_length (ascii "placeid")
    rw [← hbody]; simp only [List.length_append, List.length_cons]; omega
  obtain ⟨t1, ht1⟩ : ∃ t1, body = 0x22 :: t1 := by
    obtain ⟨t, ht⟩ := encodeString_head (ascii "placeid")
    rw [← hbody, ht]; exact ⟨_, rfl⟩
  obtain ⟨f, hf⟩ : ∃ f, body.length = f + 3 := ⟨body.length - 3, by omega⟩
  have hpo : parseObject (0x7B :: body) = parseMembers body.length ⟨[], [], []⟩ body := by
    rw [ht1]; simp [parseObject, skipSpace, isSpace]
  rw [hpo, hf, hm f]

/-- The elements of an array written by the encoder for any entries are read by the
decoder as as many entries. -/
theorem parseElems_encodeElems_defined (l : List DataEntry) :
    l ≠ [] → ∃ l1 : List DataEntry, l1.length = l.length ∧
      ∀ (fuel : Nat) (acc : List DataEntry) (rest : List Nat), l.length ≤ fuel →
        parseElems fuel acc (encodeElems l ++ 0x5D :: rest) = some (acc ++ l1, rest) := by
  induction l with
  | nil => intro h; exact absurd rfl h
  | cons e es ih =>
    intro _
    obtain ⟨e1, he1⟩ := parseObject_encodeEntry_defined e
    cases es with
    | nil =>
      refine ⟨[e1], rfl, ?_⟩
      intro fuel acc rest hf
      obtain ⟨f, rfl⟩ : ∃ f, fuel = f + 1 := ⟨fuel - 1, by simp at hf; omega⟩
      rw [encodeElems, parseElems, he1]
      simp [skipSpace_cons 0x5D _ (by decide)]
    | cons e2 es =>
      obtain ⟨l1, hl1, hp⟩ := ih (by simp)
      refine ⟨e1 :: l1, by simp [hl1], ?_⟩
      intro fuel acc rest hf
      obtain ⟨f, rfl⟩ : ∃ f, fuel = f + 1 := ⟨fuel - 1, by simp at hf; omega⟩
      obtain ⟨t, ht⟩ := encodeElems_head e2 es
      have hsk : skipSpace (encodeElems (e2 :: es) ++ 0x5D :: rest)
          = encodeElems (e2 :: es) ++ 0x5D :: rest := by
        rw [ht]; exact skipSpace_cons _ _ (by decide)
      have := hp f (acc ++ [e1]) rest (by simp at hf ⊢; omega)
      rw [encodeElems, List.append_assoc, List.cons_append, parseElems, he1]
      simp only [skipSpace_cons 0x2C _ (by decide), if_true, hsk, this]
      simp

/-- Whatever the collection, the text `Marshal` writes decodes without error, to a
collection of the same length (nil for nil). -/
theorem Unmarshal_Marshal_defined (c : Entries) :
    ∃ c1 : Entries, Unmarshal (Marshal c) = some c1 ∧ c1.len = c.len ∧
      (c1 = none ↔ c = none) := by
  cases c with
  | none => exact ⟨none, by decide, rfl, Iff.rfl⟩
  | some l =>
    cases l with
    | nil => exact ⟨some [], by decide, rfl, Iff.rfl⟩
    | cons e es =>
      obtain ⟨l1, hl1, hp0⟩ := parseElems_encodeElems_defined (e :: es) (by simp)
      refine ⟨some l1, ?_, by simpa [Entries.len] using hl1, by simp⟩
      obtain ⟨t, ht⟩ := encodeElems_head e es
      have hp := hp0 (encodeElems (e :: es) ++ [0x5D]).length [] []
        (by have := encodeElems_length (e :: es); simp only [List.length_append]; omega)
      have hs1 : skipSpace (Marshal (some (e :: es)))
          = 0x5B :: (encodeElems (e :: es) ++ [0x5D]) := by
        simp [Marshal, skipSpace, isSpace]
      have hs2 : skipSpace (encodeElems (e :: es) ++ [0x5D])
          = encodeElems (e :: es) ++ [0x5D] := by
        rw [ht]; exact skipSpace_cons _ _ (by decide)
      rw [Unmarshal, hs1, parseValue]
      simp only [if_true, hs2]
      rw [ht] at hp ⊢
      simp only [List.cons_append] at hp ⊢
      rw [if_neg (by decide), hp]
      simp [skipSpace]

/-! ## The two handlers, case by case -/

/-- The value `write` hands to `PutState`: the marshalled one-element slice. -/
theorem write_eq (stub : ChaincodeStub) (k p t ts : List Nat) :
    write stub [k, p, t, ts] =
      match stub.getErr k with
      | some e => ⟨none, some e, { stub with trace := stub.trace ++ [StubCall.get k] }⟩
      | none =>
        match stub.putErr k (Marshal (some [⟨p, t, ts⟩])) with
        | some e => ⟨none, some e, { stub with
            trace := stub.trace ++ [StubCall.get k] ++
              [StubCall.put k (Marshal (some [⟨p, t, ts⟩]))] }⟩
        | none => ⟨none, none, { stub with
            state := fun x => if x = k then some (Marshal (some [⟨p, t, ts⟩])) else stub.state x,
            trace := stub.trace ++ [StubCall.get k] ++
              [StubCall.put k (Marshal (some [⟨p, t, ts⟩]))] }⟩ := by
  have hent : ∀ d : Option (List Nat),
      (match d with
        | some data => (UnmarshalByValue data (none : Entries)).1
        | none => (none : Entries)) = none := by
    intro d; cases d <;> rfl
  unfold write GetState
  cases hg : stub.getErr k with
  | some e => simp [hg]
  | none =>
    simp only [hg, hent, Entries.append, PutState]
    cases hp : stub.putErr k (Marshal (some [⟨p, t, ts⟩])) <;> simp [hp]

/-- What `read` does on one argument. -/
theorem read_eq (stub : ChaincodeStub) (k : List Nat) :
    read stub [k] =
      match stub.getErr k with
      | some _ => ⟨none,
          some (errorsNew (ascii "\x7b\"Error\":\"Failed to get state for " ++ k ++ ascii "\"\x7d")),
          { stub with trace := stub.trace ++ [StubCall.get k] }⟩
      | none => ⟨stub.state k, none, { stub with trace := stub.trace ++ [StubCall.get k] }⟩ := by
  unfold read GetState
  cases hg : stub.getErr k <;> simp [hg]

/-- What `Init` does on one argument. -/
theorem Init_eq (stub : ChaincodeStub) (f v : List Nat) :
    Init stub f [v] =
      match stub.putErr (ascii "hello_world") v with
      | some e => ⟨none, some e,
          { stub with trace := stub.trace ++ [StubCall.put (ascii "hello_world") v] }⟩
      | none => ⟨none, none, { stub with
          state := fun x => if x = ascii "hello_world" then some v else stub.state x,
          trace := stub.trace ++ [StubCall.put (ascii "hello_world") v] }⟩ := by
  unfold Init PutState
  cases hp : stub.putErr (ascii "hello_world") v <;> simp [hp]

/-- With a number of arguments other than four, `write` answers at once. -/
theorem write_arity (stub : ChaincodeStub) (args : List (List Nat)) (h : args.length ≠ 4) :
    write stub args = ⟨none, some (errorsNew (ascii
      "Incorrect number of arguments. Expecting 4. Product id, place id, temperature, and taime stamp.")),
      stub⟩ := by
  rcases args with _ | ⟨a, _ | ⟨b, _ | ⟨c, _ | ⟨d, _ | ⟨e, l⟩⟩⟩⟩⟩ <;> simp [write] at h ⊢

/-- With a number of arguments other than one, `Init` answers at once. -/
theorem Init_arity (stub : ChaincodeStub) (f : List Nat) (args : List (List Nat))
    (h : args.length ≠ 1) :
    Init stub f args =
      ⟨none, some (errorsNew (ascii "Incorrect number of arguments. Expecting 1")), stub⟩ := by
  rcases args with _ | ⟨a, _ | ⟨b, l⟩⟩ <;> simp [Init] at h ⊢

/-- With a number of arguments other than one, `read` answers at once. -/
theorem read_arity (stub : ChaincodeStub) (args : List (List Nat)) (h : args.length ≠ 1) :
    read stub args =
      ⟨none, some (errorsNew (ascii "Incorrect number of arguments. Expecting productid to query")),
        stub⟩ := by
  rcases args with _ | ⟨a, _ | ⟨b, l⟩⟩ <;> simp [read] at h ⊢

/-- The operation `write` of `Invoke` is the handler `write`. -/
theorem Invoke_write (stub : ChaincodeStub) (args : List (List Nat)) :
    Invoke stub (ascii "write") args = write stub args := by
  have h : ascii "write" ≠ ascii "init" := by decide
  simp [Invoke, h]

/-- The operation `init` of `Invoke` is the handler `Init`. -/
theorem Invoke_init (stub : ChaincodeStub) (args : List (List Nat)) :
    Invoke stub (ascii "init") args = Init stub (ascii "init") args := by
  simp [Invoke]

/-- The operation `read` of `Query` is the handler `read`. -/
theorem Query_read (stub : ChaincodeStub) (args : List (List Nat)) :
    Query stub (ascii "read") args = read stub args := by
  simp [Query]

/-- A get adds no put to a trace. -/
theorem countPuts_get (tr : List StubCall) (k : List Nat) :
    countPuts (tr ++ [StubCall.get k]) = countPuts tr := by
  simp [countPuts, List.filter_append]

/-- A put adds one put to a trace. -/
theorem countPuts_put (tr : List StubCall) (k v : List Nat) :
    countPuts (tr ++ [StubCall.put k v]) = countPuts tr + 1 := by
  simp [countPuts, List.filter_append]

/-- A get adds one get to a trace. -/
theorem countGets_get (tr : List StubCall) (k : List Nat) :
    countGets (tr ++ [StubCall.get k]) = countGets tr + 1 := by
  simp [countGets, List.filter_append]

/-- A put adds no get to a trace. -/
theorem countGets_put (tr : List StubCall) (k v : List Nat) :
    countGets (tr ++ [StubCall.put k v]) = countGets tr := by
  simp [countGets, List.filter_append]

/-- A `write` that returns a nil error: both store calls succeeded, and the world
state holds the marshalled one-element slice under the key. -/
theorem write_ok (stub : ChaincodeStub) (k p t ts : List Nat)
    (h : (write stub [k, p, t, ts]).err = none) :
    stub.getErr k = none ∧ stub.putErr k (Marshal (some [⟨p, t, ts⟩])) = none ∧
    (write stub [k, p, t, ts]).stub.state =
      (fun x => if x = k then some (Marshal (some [⟨p, t, ts⟩])) else stub.state x) ∧
    (write stub [k, p, t, ts]).stub.getErr = stub.getErr ∧
    (write stub [k, p, t, ts]).stub.putErr = stub.putErr := by
  rw [write_eq] at h ⊢
  cases hg : stub.getErr k with
  | some e => rw [hg] at h; simp at h
  | none =>
    rw [hg] at h
    cases hp : stub.putErr k (Marshal (some [⟨p, t, ts⟩])) with
    | some e => simp only [hp] at h; simp at h
    | none => simp

/-! ## C1: write, then read -/

/-- C1, as stated, fails when an argument is not well-formed UTF-8: after a successful
`write` whose place identifier is the single byte `0xFF`, `read` succeeds and its
payload decodes to a collection whose only entry has the place identifier
`EF BF BD` (U+FFFD); no decoding of the payload has the written entry last. -/
theorem write_then_read_not_exact :
    (Invoke freshStub (ascii "write") [ascii "P1", [0xFF], ascii "21.5", ascii "t0"]).err = none ∧
    (Query (Invoke freshStub (ascii "write") [ascii "P1", [0xFF], ascii "21.5", ascii "t0"]).stub
      (ascii "read") [ascii "P1"]).err = none ∧
    ((Query (Invoke freshStub (ascii "write") [ascii "P1", [0xFF], ascii "21.5", ascii "t0"]).stub
      (ascii "read") [ascii "P1"]).payload.bind Unmarshal)
      = some (some [⟨[0xEF, 0xBF, 0xBD], ascii "21.5", ascii "t0"⟩]) ∧
    ¬ ∃ bytes l,
      (Query (Invoke freshStub (ascii "write") [ascii "P1", [0xFF], ascii "21.5", ascii "t0"]).stub
        (ascii "read") [ascii "P1"]).payload = some bytes ∧
      Unmarshal bytes = some (some l) ∧ l ≠ [] ∧
      l.getLast? = some ⟨[0xFF], ascii "21.5", ascii "t0"⟩ := by
  have hdec : ((Query (Invoke freshStub (ascii "write")
      [ascii "P1", [0xFF], ascii "21.5", ascii "t0"]).stub
      (ascii "read") [ascii "P1"]).payload.bind Unmarshal)
      = some (some [⟨[0xEF, 0xBF, 0xBD], ascii "21.5", ascii "t0"⟩]) := by decide
  refine ⟨by decide, by decide, hdec, ?_⟩
  rintro ⟨bytes, l, hb, hu, _, hl⟩
  rw [hb] at hdec
  change Unmarshal bytes = _ at hdec
  rw [hu] at hdec
  have hl2 : l = [⟨[0xEF, 0xBF, 0xBD], ascii "21.5", ascii "t0"⟩] :=
    Option.some.inj (Option.some.inj hdec)
  rw [hl2] at hl
  exact absurd hl (by decide)

/-- C1, amended. For every stub and every four arguments `[k, p, t, ts]` in which
`p`, `t` and `ts` are well-formed UTF-8: if `Invoke` of `write` succeeds, then
`Query` of `read` on `[k]` in the resulting state succeeds, and the bytes it returns
decode to a non-empty collection whose last entry is exactly `{p, t, ts}`. -/
theorem write_then_read_decodes_last (stub : ChaincodeStub) (k p t ts : List Nat)
    (hp : utf8Valid p = true) (ht : utf8Valid t = true) (hts : utf8Valid ts = true)
    (hw : (Invoke stub (ascii "write") [k, p, t, ts]).err = none) :
    (Query (Invoke stub (ascii "write") [k, p, t, ts]).stub (ascii "read") [k]).err = none ∧
    ∃ bytes l,
      (Query (Invoke stub (ascii "write") [k, p, t, ts]).stub (ascii "read") [k]).payload
        = some bytes ∧
      Unmarshal bytes = some (some l) ∧ l ≠ [] ∧ l.getLast? = some ⟨p, t, ts⟩ := by
  rw [Invoke_write] at hw ⊢
  obtain ⟨hg, _, hstate, hgetErr, _⟩ := write_ok stub k p t ts hw
  have hg2 : (write stub [k, p, t, ts]).stub.getErr k = none := by rw [hgetErr]; exact hg
  have hst : (write stub [k, p, t, ts]).stub.state k = some (Marshal (some [⟨p, t, ts⟩])) := by
    rw [hstate]; simp
  have hval : entriesValid (some [⟨p, t, ts⟩]) = true := by
    simp [entriesValid, entryValid, hp, ht, hts]
  rw [Query_read, read_eq, hg2]
  refine ⟨rfl, Marshal (some [⟨p, t, ts⟩]), [⟨p, t, ts⟩], hst, Unmarshal_Marshal _ hval, ?_, rfl⟩
  simp

/-- C1, amended, at the scenario of the specification. -/
theorem write_then_read_decodes_last_witness :
    utf8Valid (ascii "Loc1") = true ∧ utf8Valid (ascii "21.5") = true ∧
    utf8Valid (ascii "2024-01-01T00:00:00Z") = true ∧
    (Invoke freshStub (ascii "write")
      [ascii "P1", ascii "Loc1", ascii "21.5", ascii "2024-01-01T00:00:00Z"]).err = none ∧
    ((Query (Invoke freshStub (ascii "write")
      [ascii "P1", ascii "Loc1", ascii "21.5", ascii "2024-01-01T00:00:00Z"]).stub
      (ascii "read") [ascii "P1"]).err = none ∧
    ∃ bytes l,
      (Query (Invoke freshStub (ascii "write")
        [ascii "P1", ascii "Loc1", ascii "21.5", ascii "2024-01-01T00:00:00Z"]).stub
        (ascii "read") [ascii "P1"]).payload = some bytes ∧
      Unmarshal bytes = some (some l) ∧ l ≠ [] ∧
      l.getLast? = some ⟨ascii "Loc1", ascii "21.5", ascii "2024-01-01T00:00:00Z"⟩) :=
  ⟨by decide, by decide, by decide, by decide,
    write_then_read_decodes_last freshStub (ascii "P1") (ascii "Loc1") (ascii "21.5")
      (ascii "2024-01-01T00:00:00Z") (by decide) (by decide) (by decide) (by decide)⟩

/-! ## C2: a second write to the same key -/

/-- C2 fails on the code: starting from a ledger without the key `P1`, two successful
writes to `P1` leave under `P1` the encoding of the one-entry collection holding the
second entry only; the first entry is gone and the length is one, not two. -/
theorem second_write_overwrites :
    (Invoke freshStub (ascii "write") [ascii "P1", ascii "Loc1", ascii "21.5", ascii "t1"]).err
      = none ∧
    (Invoke (Invoke freshStub (ascii "write")
        [ascii "P1", ascii "Loc1", ascii "21.5", ascii "t1"]).stub
      (ascii "write") [ascii "P1", ascii "Loc2", ascii "22.0", ascii "t2"]).err = none ∧
    (Invoke (Invoke freshStub (ascii "write")
        [ascii "P1", ascii "Loc1", ascii "21.5", ascii "t1"]).stub
      (ascii "write") [ascii "P1", ascii "Loc2", ascii "22.0", ascii "t2"]).stub.state (ascii "P1")
      = some (Marshal (some [⟨ascii "Loc2", ascii "22.0", ascii "t2"⟩])) ∧
    ((Invoke (Invoke freshStub (ascii "write")
        [ascii "P1", ascii "Loc1", ascii "21.5", ascii "t1"]).stub
      (ascii "write") [ascii "P1", ascii "Loc2", ascii "22.0", ascii "t2"]).stub.state
        (ascii "P1")).bind Unmarshal
      = some (some [⟨ascii "Loc2", ascii "22.0", ascii "t2"⟩]) := by
  decide

/-! ## C3: the codec round-trips on well-formed UTF-8 -/

/-- C3, as stated, fails on a collection holding a string that is not well-formed
UTF-8: the entry whose place identifier is the single byte `0xFF` is marshalled with
the escape for U+FFFD and decodes to a different entry. -/
theorem codec_round_trip_fails_on_invalid_utf8 :
    Unmarshal (Marshal (some [⟨[0xFF], [], []⟩])) = some (some [⟨[0xEF, 0xBF, 0xBD], [], []⟩]) ∧
    Unmarshal (Marshal (some [⟨[0xFF], [], []⟩])) ≠ some (some [⟨[0xFF], [], []⟩]) := by
  decide

/-- C3, amended. For every collection `c` of entries whose strings are well-formed
UTF-8 (the nil and the empty collection and empty strings included), decoding the
marshalled collection succeeds and gives `c` back. -/
theorem codec_round_trip (c : Entries) (hv : entriesValid c = true) :
    Unmarshal (Marshal c) = some c :=
  Unmarshal_Marshal c hv

/-- C3, amended, on the empty collection and on a collection with empty-string
fields, escaped bytes and a two-byte rune. -/
theorem codec_round_trip_witness :
    (entriesValid (some []) = true ∧ Unmarshal (Marshal (some [])) = some (some [])) ∧
    (entriesValid (some [⟨[], ascii "21.5", [0xC3, 0xA9]⟩, ⟨ascii "Loc<1>\n", [], []⟩]) = true ∧
      Unmarshal (Marshal (some [⟨[], ascii "21.5", [0xC3, 0xA9]⟩, ⟨ascii "Loc<1>\n", [], []⟩]))
        = some (some [⟨[], ascii "21.5", [0xC3, 0xA9]⟩, ⟨ascii "Loc<1>\n", [], []⟩])) :=
  ⟨⟨by decide, codec_round_trip (some []) (by decide)⟩,
    ⟨by decide, codec_round_trip
      (some [⟨[], ascii "21.5", [0xC3, 0xA9]⟩, ⟨ascii "Loc<1>\n", [], []⟩]) (by decide)⟩⟩

/-! ## C4: arity -/

/-- C4. Arity mismatch is rejected before any store access: `Invoke` of `write` with
a number of arguments other than four, and `Init`, `Invoke` of `init` and `Query` of
`read` with a number of arguments other than one, each return no payload and an
`InvalidArguments` error, and leave the stub (world state and trace of calls) exactly
as it was: no get and no put is made. -/
theorem arity_mismatch_rejected_untouched (stub : ChaincodeStub) (f : List Nat)
    (a4 a1 : List (List Nat)) (h4 : a4.length ≠ 4) (h1 : a1.length ≠ 1) :
    RejectedUntouched isInvalidArguments stub (Invoke stub (ascii "write") a4) ∧
    RejectedUntouched isInvalidArguments stub (Init stub f a1) ∧
    RejectedUntouched isInvalidArguments stub (Invoke stub (ascii "init") a1) ∧
    RejectedUntouched isInvalidArguments stub (Query stub (ascii "read") a1) := by
  rw [Invoke_write, Invoke_init, Query_read, write_arity stub a4 h4, Init_arity stub f a1 h1,
    Init_arity stub _ a1 h1, read_arity stub a1 h1]
  refine ⟨⟨rfl, ⟨_, rfl, by decide⟩, rfl⟩, ⟨rfl, ⟨_, rfl, by decide⟩, rfl⟩,
    ⟨rfl, ⟨_, rfl, by decide⟩, rfl⟩, ⟨rfl, ⟨_, rfl, by decide⟩, rfl⟩⟩

/-- C4 at the inputs of the specification: `write` with no argument and with three
arguments, and `read` with two arguments. -/
theorem arity_mismatch_rejected_untouched_witness :
    ([] : List (List Nat)).length ≠ 4 ∧
    ([ascii "a", ascii "b", ascii "c"] : List (List Nat)).length ≠ 4 ∧
    ([ascii "x", ascii "y"] : List (List Nat)).length ≠ 1 ∧
    RejectedUntouched isInvalidArguments freshStub (Invoke freshStub (ascii "write") []) ∧
    RejectedUntouched isInvalidArguments freshStub
      (Invoke freshStub (ascii "write") [ascii "a", ascii "b", ascii "c"]) ∧
    RejectedUntouched isInvalidArguments freshStub
      (Query freshStub (ascii "read") [ascii "x", ascii "y"]) :=
  ⟨by decide, by decide, by decide,
    (arity_mismatch_rejected_untouched freshStub [] [] [ascii "x", ascii "y"]
      (by decide) (by decide)).1,
    (arity_mismatch_rejected_untouched freshStub [] [ascii "a", ascii "b", ascii "c"]
      [ascii "x", ascii "y"] (by decide) (by decide)).1,
    (arity_mismatch_rejected_untouched freshStub [] [ascii "a", ascii "b", ascii "c"]
      [ascii "x", ascii "y"] (by decide) (by decide)).2.2.2⟩

/-! ## C5: unknown operations -/

/-- C5. Unrecognized operations are rejected and the two namespaces are disjoint:
`Invoke` of a name other than `init` and `write`, and `Query` of a name other than
`read`, return no payload and an `UnknownOperation` error, and leave the stub (world
state and trace of calls) exactly as it was. -/
theorem unknown_operation_rejected_untouched (stub : ChaincodeStub) (nameI nameQ : List Nat)
    (args : List (List Nat)) (hi : nameI ≠ ascii "init") (hw : nameI ≠ ascii "write")
    (hr : nameQ ≠ ascii "read") :
    RejectedUntouched isUnknownOperation stub (Invoke stub nameI args) ∧
    RejectedUntouched isUnknownOperation stub (Query stub nameQ args) := by
  simp only [Invoke, Query, if_neg hi, if_neg hw, if_neg hr]
  exact ⟨⟨rfl, ⟨_, rfl, by decide⟩, rfl⟩, ⟨rfl, ⟨_, rfl, by decide⟩, rfl⟩⟩

/-- C5 at `read` sent to `Invoke` and `write` sent to `Query`. -/
theorem unknown_operation_rejected_untouched_witness :
    ascii "read" ≠ ascii "init" ∧ ascii "read" ≠ ascii "write" ∧ ascii "write" ≠ ascii "read" ∧
    RejectedUntouched isUnknownOperation freshStub (Invoke freshStub (ascii "read") [ascii "x"]) ∧
    RejectedUntouched isUnknownOperation freshStub (Query freshStub (ascii "write") [ascii "x"]) :=
  ⟨by decide, by decide, by decide,
    unknown_operation_rejected_untouched freshStub (ascii "read") (ascii "write") [ascii "x"]
      (by decide) (by decide) (by decide)⟩

/-! ## C6: read returns the stored bytes -/

/-- C6. For a key on which the ledger's get succeeds, `Query` of `read` returns a nil
error and exactly the bytes the world state holds for the key, whatever they are
(no decoding, no re-encoding); for an absent key it returns the nil payload and a
nil error. -/
theorem read_returns_stored_bytes (stub : ChaincodeStub) (k : List Nat)
    (hget : stub.getErr k = none) :
    (Query stub (ascii "read") [k]).err = none ∧
    (Query stub (ascii "read") [k]).payload = stub.state k ∧
    (stub.state k = none → (Query stub (ascii "read") [k]).payload = none) := by
  rw [Query_read, read_eq, hget]
  exact ⟨rfl, rfl, fun h => h⟩

/-- C6 on the bootstrap value, which is not a record collection, after `init`. -/
theorem read_returns_stored_bytes_witness :
    (Init freshStub [] [ascii "seed"]).stub.getErr (ascii "hello_world") = none ∧
    (Query (Init freshStub [] [ascii "seed"]).stub (ascii "read") [ascii "hello_world"]).payload
      = some (ascii "seed") :=
  ⟨rfl, (read_returns_stored_bytes (Init freshStub [] [ascii "seed"]).stub (ascii "hello_world")
    rfl).2.1.trans (by decide)⟩

/-! ## C7: init stores the raw argument -/

/-- C7. A successful `Init` on one argument `v`, and equally a successful `Invoke` of
`init`, leaves exactly the bytes of `v` under the key `hello_world`, so that a get of
`hello_world` that the ledger answers returns `v` and a nil error. -/
theorem init_stores_raw_bytes (stub : ChaincodeStub) (f v : List Nat) :
    ((Init stub f [v]).err = none →
      (Init stub f [v]).stub.state (ascii "hello_world") = some v ∧
      ((Init stub f [v]).stub.getErr (ascii "hello_world") = none →
        (GetState (Init stub f [v]).stub (ascii "hello_world")).1 = some v ∧
        (GetState (Init stub f [v]).stub (ascii "hello_world")).2.1 = none)) ∧
    ((Invoke stub (ascii "init") [v]).err = none →
      (Invoke stub (ascii "init") [v]).stub.state (ascii "hello_world") = some v ∧
      ((Invoke stub (ascii "init") [v]).stub.getErr (ascii "hello_world") = none →
        (GetState (Invoke stub (ascii "init") [v]).stub (ascii "hello_world")).1 = some v ∧
        (GetState (Invoke stub (ascii "init") [v]).stub (ascii "hello_world")).2.1 = none)) := by
  have key : ∀ g : List Nat, (Init stub g [v]).err = none →
      (Init stub g [v]).stub.state (ascii "hello_world") = some v ∧
      ((Init stub g [v]).stub.getErr (ascii "hello_world") = none →
        (GetState (Init stub g [v]).stub (ascii "hello_world")).1 = some v ∧
        (GetState (Init stub g [v]).stub (ascii "hello_world")).2.1 = none) := by
    intro g
    rw [Init_eq]
    cases hp : stub.putErr (ascii "hello_world") v with
    | some e => simp
    | none =>
      intro _
      refine ⟨by simp, ?_⟩
      intro hg
      simp only at hg
      simp [GetState, hg]
  rw [Invoke_init]
  exact ⟨key f, key _⟩

/-- C7 at the scenario of the specification: `init(["seed"])`, then a get of
`hello_world`. -/
theorem init_stores_raw_bytes_witness :
    (Init freshStub [] [ascii "seed"]).err = none ∧
    (Init freshStub [] [ascii "seed"]).stub.getErr (ascii "hello_world") = none ∧
    (GetState (Init freshStub [] [ascii "seed"]).stub (ascii "hello_world")).1
      = some (ascii "seed") :=
  ⟨rfl, rfl, (((init_stores_raw_bytes freshStub [] (ascii "seed")).1 rfl).2 rfl).1⟩

/-! ## C8: write and store failures -/

/-- C8. Atomicity of `write` with respect to store failures, for four arguments on
key `k`: if the get fails, `write` returns an error, makes no put and leaves the
world state as it was; if the get succeeds and the put of the marshalled collection
fails, `write` returns an error; and whenever `write` returns an error the world
state, at `k` and at every other key, is the one before the call. -/
theorem write_atomic_on_store_failure (stub : ChaincodeStub) (k p t ts : List Nat) :
    (stub.getErr k ≠ none →
      (write stub [k, p, t, ts]).err ≠ none ∧
      countPuts (write stub [k, p, t, ts]).stub.trace = countPuts stub.trace ∧
      (write stub [k, p, t, ts]).stub.state = stub.state) ∧
    (stub.getErr k = none → stub.putErr k (Marshal (some [⟨p, t, ts⟩])) ≠ none →
      (write stub [k, p, t, ts]).err ≠ none ∧
      (write stub [k, p, t, ts]).stub.state = stub.state) ∧
    ((write stub [k, p, t, ts]).err ≠ none →
      (write stub [k, p, t, ts]).stub.state = stub.state) := by
  rw [write_eq]
  cases hg : stub.getErr k with
  | some e => simp [countPuts_get]
  | none =>
    cases hp : stub.putErr k (Marshal (some [⟨p, t, ts⟩])) with
    | some e => simp
    | none => simp

/-- C8 on a ledger whose gets fail and on a ledger whose puts fail. -/
theorem write_atomic_on_store_failure_witness :
    (getFailStub.getErr (ascii "P1") ≠ none ∧
      (write getFailStub [ascii "P1", ascii "Loc1", ascii "21.5", ascii "t0"]).err ≠ none ∧
      countPuts (write getFailStub [ascii "P1", ascii "Loc1", ascii "21.5", ascii "t0"]).stub.trace
        = countPuts getFailStub.trace ∧
      (write getFailStub [ascii "P1", ascii "Loc1", ascii "21.5", ascii "t0"]).stub.state
        = getFailStub.state) ∧
    (putFailStub.getErr (ascii "P1") = none ∧
      putFailStub.putErr (ascii "P1") (Marshal (some [⟨ascii "Loc1", ascii "21.5", ascii "t0"⟩]))
        ≠ none ∧
      (write putFailStub [ascii "P1", ascii "Loc1", ascii "21.5", ascii "t0"]).err ≠ none ∧
      (write putFailStub [ascii "P1", ascii "Loc1", ascii "21.5", ascii "t0"]).stub.state
        = putFailStub.state) :=
  ⟨⟨by decide, (write_atomic_on_store_failure getFailStub (ascii "P1") (ascii "Loc1")
      (ascii "21.5") (ascii "t0")).1 (by decide)⟩,
    ⟨rfl, by simp [putFailStub], (write_atomic_on_store_failure putFailStub (ascii "P1")
      (ascii "Loc1") (ascii "21.5") (ascii "t0")).2.1 rfl (by simp [putFailStub])⟩⟩

/-! ## C9: which store failures are surfaced verbatim -/

/-- C9, as stated, fails for `read`: on a ledger whose get fails with an error `e`,
`Query` of `read` with one argument returns an error that is not `e`. -/
theorem read_get_failure_not_verbatim :
    getFailStub.getErr (ascii "P1") = some ledgerDown ∧
    (Query getFailStub (ascii "read") [ascii "P1"]).err ≠ some ledgerDown := by
  decide

/-- C9, amended. With the correct number of arguments and a store call failing with
`e`: `Init` (failed put) and `write` (failed get, or failed put after a successful
get) return exactly `e`; `read` (failed get) returns instead a new error whose
message is `{"Error":"Failed to get state for <key>"}`. In every case the failing
call is made once and nothing is called after it (no retry). -/
theorem store_failures_surfaced (stub : ChaincodeStub) (f v k p t ts : List Nat) (e : GoError) :
    (stub.putErr (ascii "hello_world") v = some e →
      (Init stub f [v]).err = some e ∧
      (Init stub f [v]).stub.trace = stub.trace ++ [StubCall.put (ascii "hello_world") v]) ∧
    (stub.getErr k = some e →
      (write stub [k, p, t, ts]).err = some e ∧
      (write stub [k, p, t, ts]).stub.trace = stub.trace ++ [StubCall.get k]) ∧
    (stub.getErr k = none → stub.putErr k (Marshal (some [⟨p, t, ts⟩])) = some e →
      (write stub [k, p, t, ts]).err = some e ∧
      (write stub [k, p, t, ts]).stub.trace =
        stub.trace ++ [StubCall.get k] ++ [StubCall.put k (Marshal (some [⟨p, t, ts⟩]))]) ∧
    (stub.getErr k = some e →
      (read stub [k]).err = some (errorsNew
        (ascii "\x7b\"Error\":\"Failed to get state for " ++ k ++ ascii "\"\x7d")) ∧
      (read stub [k]).stub.trace = stub.trace ++ [StubCall.get k]) := by
  refine ⟨?_, ?_, ?_, ?_⟩
  · intro h; rw [Init_eq, h]; exact ⟨rfl, rfl⟩
  · intro h; rw [write_eq, h]; exact ⟨rfl, rfl⟩
  · intro hg h; rw [write_eq, hg]; simp only []; rw [h]; exact ⟨rfl, rfl⟩
  · intro h; rw [read_eq, h]; exact ⟨rfl, rfl⟩

/-- C9, amended, on a ledger whose gets fail and on a ledger whose puts fail. -/
theorem store_failures_surfaced_witness :
    (putFailStub.putErr (ascii "hello_world") (ascii "seed") = some ledgerDown ∧
      (Init putFailStub [] [ascii "seed"]).err = some ledgerDown) ∧
    (getFailStub.getErr (ascii "P1") = some ledgerDown ∧
      (write getFailStub [ascii "P1", ascii "Loc1", ascii "21.5", ascii "t0"]).err
        = some ledgerDown) ∧
    (putFailStub.getErr (ascii "P1") = none ∧
      putFailStub.putErr (ascii "P1") (Marshal (some [⟨ascii "Loc1", ascii "21.5", ascii "t0"⟩]))
        = some ledgerDown ∧
      (write putFailStub [ascii "P1", ascii "Loc1", ascii "21.5", ascii "t0"]).err
        = some ledgerDown) ∧
    (read getFailStub [ascii "P1"]).err = some (errorsNew
        (ascii "\x7b\"Error\":\"Failed to get state for " ++ ascii "P1" ++ ascii "\"\x7d")) :=
  ⟨⟨rfl, ((store_failures_surfaced putFailStub [] (ascii "seed") (ascii "P1") (ascii "Loc1")
      (ascii "21.5") (ascii "t0") ledgerDown).1 rfl).1⟩,
    ⟨rfl, ((store_failures_surfaced getFailStub [] (ascii "seed") (ascii "P1") (ascii "Loc1")
      (ascii "21.5") (ascii "t0") ledgerDown).2.1 rfl).1⟩,
    ⟨rfl, rfl, ((store_failures_surfaced putFailStub [] (ascii "seed") (ascii "P1") (ascii "Loc1")
      (ascii "21.5") (ascii "t0") ledgerDown).2.2.1 rfl rfl).1⟩,
    ((store_failures_surfaced getFailStub [] (ascii "seed") (ascii "P1") (ascii "Loc1")
      (ascii "21.5") (ascii "t0") ledgerDown).2.2.2 rfl).1⟩

/-! ## C10: number of store calls -/

/-- C10. On the trace of stub calls: a successful `Init` on one argument and a
successful `write` on four arguments, called directly or through `Invoke`, each make
exactly one put; `Query` of `read` on one argument makes exactly one get and no put;
and the world state after any `Query` call is the world state before it. -/
theorem store_call_counts (stub : ChaincodeStub) (f v k p t ts name : List Nat)
    (args : List (List Nat)) :
    ((Init stub f [v]).err = none →
      countPuts (Init stub f [v]).stub.trace = countPuts stub.trace + 1) ∧
    ((Invoke stub (ascii "init") [v]).err = none →
      countPuts (Invoke stub (ascii "init") [v]).stub.trace = countPuts stub.trace + 1) ∧
    ((write stub [k, p, t, ts]).err = none →
      countPuts (write stub [k, p, t, ts]).stub.trace = countPuts stub.trace + 1) ∧
    ((Invoke stub (ascii "write") [k, p, t, ts]).err = none →
      countPuts (Invoke stub (ascii "write") [k, p, t, ts]).stub.trace
        = countPuts stub.trace + 1) ∧
    (countGets (Query stub (ascii "read") [k]).stub.trace = countGets stub.trace + 1 ∧
      countPuts (Query stub (ascii "read") [k]).stub.trace = countPuts stub.trace) ∧
    (Query stub name args).stub.state = stub.state := by
  have hI : ∀ g : List Nat, (Init stub g [v]).err = none →
      countPuts (Init stub g [v]).stub.trace = countPuts stub.trace + 1 := by
    intro g
    rw [Init_eq]
    cases hp : stub.putErr (ascii "hello_world") v <;> simp [countPuts_put]
  have hW : (write stub [k, p, t, ts]).err = none →
      countPuts (write stub [k, p, t, ts]).stub.trace = countPuts stub.trace + 1 := by
    rw [write_eq]
    cases hg : stub.getErr k with
    | some e => simp
    | none =>
      cases hp : stub.putErr k (Marshal (some [⟨p, t, ts⟩])) <;>
        simp [countPuts, List.filter_append]
  have hR : ∀ a : List (List Nat), (read stub a).stub.state = stub.state := by
    intro a
    rcases a with _ | ⟨a0, _ | ⟨a1, l⟩⟩
    · rfl
    · rw [read_eq]; cases stub.getErr a0 <;> rfl
    · rfl
  refine ⟨hI f, ?_, hW, ?_, ?_, ?_⟩
  · rw [Invoke_init]; exact hI _
  · rw [Invoke_write]; exact hW
  · rw [Query_read, read_eq]
    cases hg : stub.getErr k <;> simp [countGets_get, countPuts_get]
  · unfold Query
    split
    · exact hR args
    · rfl

/-- C10 on a working ledger: one put for `init`, one put for `write`. -/
theorem store_call_counts_witness :
    ((Init freshStub [] [ascii "seed"]).err = none ∧
      countPuts (Init freshStub [] [ascii "seed"]).stub.trace = countPuts freshStub.trace + 1) ∧
    ((Invoke freshStub (ascii "write") [ascii "P1", ascii "Loc1", ascii "21.5", ascii "t0"]).err
        = none ∧
      countPuts (Invoke freshStub (ascii "write")
        [ascii "P1", ascii "Loc1", ascii "21.5", ascii "t0"]).stub.trace
        = countPuts freshStub.trace + 1) :=
  ⟨⟨rfl, (store_call_counts freshStub [] (ascii "seed") (ascii "P1") (ascii "Loc1") (ascii "21.5")
      (ascii "t0") (ascii "read") []).1 rfl⟩,
    ⟨by decide, (store_call_counts freshStub [] (ascii "seed") (ascii "P1") (ascii "Loc1")
      (ascii "21.5") (ascii "t0") (ascii "read") []).2.2.2.1 (by decide)⟩⟩

/-! ## C11: what the append path leaves under the key -/

/-- C11, as stated, fails when an argument is not well-formed UTF-8: on a ledger
without the key `P1`, a successful `write` whose place identifier is the single byte
`0xFF` leaves a value that decodes to the one-entry collection with the place
identifier `EF BF BD` (U+FFFD), not to `[{p, t, ts}]`. -/
theorem append_path_not_exact :
    freshStub.state (ascii "P1") = none ∧
    (Invoke freshStub (ascii "write") [ascii "P1", [0xFF], ascii "21.5", ascii "t0"]).err = none ∧
    ((Invoke freshStub (ascii "write")
        [ascii "P1", [0xFF], ascii "21.5", ascii "t0"]).stub.state (ascii "P1")).bind Unmarshal
      = some (some [⟨[0xEF, 0xBF, 0xBD], ascii "21.5", ascii "t0"⟩]) ∧
    ((Invoke freshStub (ascii "write")
        [ascii "P1", [0xFF], ascii "21.5", ascii "t0"]).stub.state (ascii "P1")).bind Unmarshal
      ≠ some (some [⟨[0xFF], ascii "21.5", ascii "t0"⟩]) := by
  decide

/-- C11, amended. After every successful `Invoke` of `write` on `[k, p, t, ts]` the
value stored at `k` is non-empty and decodes without error to a collection. When `k`
has no prior value and the ledger's get and put succeed, the write succeeds, and if
`p`, `t` and `ts` are well-formed UTF-8 the stored value decodes to exactly the
one-entry collection `[{p, t, ts}]`. -/
theorem append_path_invariant (stub : ChaincodeStub) (k p t ts : List Nat) :
    ((Invoke stub (ascii "write") [k, p, t, ts]).err = none →
      ∃ v, (Invoke stub (ascii "write") [k, p, t, ts]).stub.state k = some v ∧ v ≠ [] ∧
        ∃ l, Unmarshal v = some (some l)) ∧
    (stub.state k = none → stub.getErr k = none →
      stub.putErr k (Marshal (some [⟨p, t, ts⟩])) = none →
      (Invoke stub (ascii "write") [k, p, t, ts]).err = none ∧
      (utf8Valid p = true → utf8Valid t = true → utf8Valid ts = true →
        ((Invoke stub (ascii "write") [k, p, t, ts]).stub.state k).bind Unmarshal
          = some (some [⟨p, t, ts⟩]))) := by
  rw [Invoke_write]
  constructor
  · intro hw
    obtain ⟨_, _, hstate, _, _⟩ := write_ok stub k p t ts hw
    obtain ⟨c1, hc1, _, hnone⟩ := Unmarshal_Marshal_defined (some [⟨p, t, ts⟩])
    refine ⟨Marshal (some [⟨p, t, ts⟩]), by rw [hstate]; simp, by simp [Marshal], ?_⟩
    cases c1 with
    | none => exact absurd (hnone.mp rfl) (by simp)
    | some l => exact ⟨l, hc1⟩
  · intro _ hg hp
    have hw : (write stub [k, p, t, ts]).err = none := by
      rw [write_eq, hg]; simp only [hp]
    refine ⟨hw, ?_⟩
    intro h1 h2 h3
    obtain ⟨_, _, hstate, _, _⟩ := write_ok stub k p t ts hw
    have hval : entriesValid (some [⟨p, t, ts⟩]) = true := by
      simp [entriesValid, entryValid, h1, h2, h3]
    rw [hstate]
    simpa using Unmarshal_Marshal _ hval

/-- C11, amended, on a ledger without the key: the first write of the scenario of
the specification. -/
theorem append_path_invariant_witness :
    freshStub.state (ascii "P1") = none ∧ freshStub.getErr (ascii "P1") = none ∧
    freshStub.putErr (ascii "P1")
      (Marshal (some [⟨ascii "Loc1", ascii "21.5", ascii "2024-01-01T00:00:00Z"⟩])) = none ∧
    utf8Valid (ascii "Loc1") = true ∧ utf8Valid (ascii "21.5") = true ∧
    utf8Valid (ascii "2024-01-01T00:00:00Z") = true ∧
    ((Invoke freshStub (ascii "write")
        [ascii "P1", ascii "Loc1", ascii "21.5", ascii "2024-01-01T00:00:00Z"]).stub.state
        (ascii "P1")).bind Unmarshal
      = some (some [⟨ascii "Loc1", ascii "21.5", ascii "2024-01-01T00:00:00Z"⟩]) :=
  ⟨rfl, rfl, rfl, by decide, by decide, by decide,
    ((append_path_invariant freshStub (ascii "P1") (ascii "Loc1") (ascii "21.5")
      (ascii "2024-01-01T00:00:00Z")).2 rfl rfl rfl).2 (by decide) (by decide) (by decide)⟩

/-! ## C12: the persisted layout -/

/-- C12. After every successful `Invoke` of `write` on `[k, p, t, ts]`, the bytes put
under `k` are a JSON array holding one object with exactly three members, named
`placeid`, `temperature` and `timestamp` in that order, whose values are JSON string
literals (those of `p`, `t` and `ts`); these bytes are the value of the one put in
the trace and the value the world state holds at `k`. -/
theorem persisted_layout (stub : ChaincodeStub) (k p t ts : List Nat)
    (hw : (Invoke stub (ascii "write") [k, p, t, ts]).err = none) :
    (Invoke stub (ascii "write") [k, p, t, ts]).stub.state k =
      some (ascii "[" ++ (ascii "\x7b\"placeid\":" ++ encodeString p ++
        ascii ",\"temperature\":" ++ encodeString t ++
        ascii ",\"timestamp\":" ++ encodeString ts ++ ascii "\x7d") ++ ascii "]") ∧
    (Invoke stub (ascii "write") [k, p, t, ts]).stub.trace =
      stub.trace ++ [StubCall.get k] ++
        [StubCall.put k (ascii "[" ++ (ascii "\x7b\"placeid\":" ++ encodeString p ++
          ascii ",\"temperature\":" ++ encodeString t ++
          ascii ",\"timestamp\":" ++ encodeString ts ++ ascii "\x7d") ++ ascii "]")] ∧
    isStringLiteral (encodeString p) = true ∧ isStringLiteral (encodeString t) = true ∧
    isStringLiteral (encodeString ts) = true := by
  rw [Invoke_write] at hw ⊢
  obtain ⟨hg, hp, hstate, _, _⟩ := write_ok stub k p t ts hw
  have hm : Marshal (some [⟨p, t, ts⟩]) =
      ascii "[" ++ (ascii "\x7b\"placeid\":" ++ encodeString p ++
        ascii ",\"temperature\":" ++ encodeString t ++
        ascii ",\"timestamp\":" ++ encodeString ts ++ ascii "\x7d") ++ ascii "]" := by
    have h1 : ascii "[" = [0x5B] := by decide
    have h2 : ascii "]" = [0x5D] := by decide
    simp [Marshal, encodeElems, encodeEntry, h1, h2]
  have hlit : ∀ x : List Nat, isStringLiteral (encodeString x) = true := by
    intro x
    obtain ⟨w, hx⟩ := parseString_encodeString_defined x
    have := hx []
    rw [List.append_nil] at this
    simp [isStringLiteral, this]
  refine ⟨?_, ?_, hlit p, hlit t, hlit ts⟩
  · rw [hstate, ← hm]; simp
  · rw [write_eq, hg]; simp only [hp]; rw [← hm]

/-- C12 at the example of the specification. -/
theorem persisted_layout_witness :
    (Invoke freshStub (ascii "write")
      [ascii "P1", ascii "Loc1", ascii "21.5", ascii "2024-01-01T00:00:00Z"]).err = none ∧
    (Invoke freshStub (ascii "write")
      [ascii "P1", ascii "Loc1", ascii "21.5", ascii "2024-01-01T00:00:00Z"]).stub.state
        (ascii "P1") = some (ascii
      "[\x7b\"placeid\":\"Loc1\",\"temperature\":\"21.5\",\"timestamp\":\"2024-01-01T00:00:00Z\"\x7d]") :=
  ⟨by decide, (persisted_layout freshStub (ascii "P1") (ascii "Loc1") (ascii "21.5")
    (ascii "2024-01-01T00:00:00Z") (by decide)).1.trans (by decide)⟩

/-! ## C13: arguments are not validated -/

/-- C13, as stated, fails on a string that is not well-formed UTF-8: with a working
ledger the write whose place identifier is the single byte `0xFF` succeeds, but the
entry it records does not carry that string: the recorded bytes are those recorded
for the place identifier `0xFE`, they decode to the place identifier `EF BF BD`
(U+FFFD), and no decoding of them has the entry of the three given strings last. -/
theorem recorded_entry_not_verbatim :
    freshStub.getErr (ascii "P7") = none ∧
    freshStub.putErr (ascii "P7") (Marshal (some [⟨[0xFF], ascii "hot", ascii "now"⟩])) = none ∧
    (Invoke freshStub (ascii "write") [ascii "P7", [0xFF], ascii "hot", ascii "now"]).err = none ∧
    (Invoke freshStub (ascii "write")
        [ascii "P7", [0xFF], ascii "hot", ascii "now"]).stub.state (ascii "P7")
      = (Invoke freshStub (ascii "write")
        [ascii "P7", [0xFE], ascii "hot", ascii "now"]).stub.state (ascii "P7") ∧
    ((Invoke freshStub (ascii "write")
        [ascii "P7", [0xFF], ascii "hot", ascii "now"]).stub.state (ascii "P7")).bind Unmarshal
      = some (some [⟨[0xEF, 0xBF, 0xBD], ascii "hot", ascii "now"⟩]) ∧
    ¬ ∃ v l,
      (Invoke freshStub (ascii "write")
        [ascii "P7", [0xFF], ascii "hot", ascii "now"]).stub.state (ascii "P7") = some v ∧
      Unmarshal v = some (some l) ∧ l.getLast? = some ⟨[0xFF], ascii "hot", ascii "now"⟩ := by
  have hdec : ((Invoke freshStub (ascii "write")
        [ascii "P7", [0xFF], ascii "hot", ascii "now"]).stub.state (ascii "P7")).bind Unmarshal
      = some (some [⟨[0xEF, 0xBF, 0xBD], ascii "hot", ascii "now"⟩]) := by decide
  refine ⟨rfl, rfl, by decide, by decide, hdec, ?_⟩
  rintro ⟨v, l, hv, hu, hl⟩
  rw [hv] at hdec
  change Unmarshal v = _ at hdec
  rw [hu] at hdec
  have hl2 : l = [⟨[0xEF, 0xBF, 0xBD], ascii "hot", ascii "now"⟩] :=
    Option.some.inj (Option.some.inj hdec)
  rw [hl2] at hl
  exact absurd hl (by decide)

/-- C13, amended. `Invoke` of `write` returns an error if and only if the number of
arguments is not four, or the get on the key fails, or the put of the marshalled
collection on the key fails. In particular, for any four strings, when the get and
the put succeed the write succeeds; and when the three strings are well-formed UTF-8
the entry it records carries them verbatim: the value stored under the key decodes
to a non-empty collection whose last entry is exactly `{p, t, ts}`. -/
theorem write_errors_iff (stub : ChaincodeStub) (args : List (List Nat)) :
    ((Invoke stub (ascii "write") args).err ≠ none ↔
      (args.length ≠ 4 ∨ ∃ k p t ts, args = [k, p, t, ts] ∧
        (stub.getErr k ≠ none ∨ stub.putErr k (Marshal (some [⟨p, t, ts⟩])) ≠ none))) ∧
    (∀ k p t ts, args = [k, p, t, ts] → stub.getErr k = none →
      stub.putErr k (Marshal (some [⟨p, t, ts⟩])) = none →
      (Invoke stub (ascii "write") args).err = none ∧
      (utf8Valid p = true → utf8Valid t = true → utf8Valid ts = true →
        ∃ v l, (Invoke stub (ascii "write") args).stub.state k = some v ∧
          Unmarshal v = some (some l) ∧ l ≠ [] ∧ l.getLast? = some ⟨p, t, ts⟩)) := by
  rw [Invoke_write]
  constructor
  · by_cases hlen : args.length = 4
    · obtain ⟨k, p, t, ts, rfl⟩ : ∃ k p t ts, args = [k, p, t, ts] := by
        rcases args with _ | ⟨a, _ | ⟨b, _ | ⟨c, _ | ⟨d, _ | ⟨e, l⟩⟩⟩⟩⟩ <;> simp at hlen
        exact ⟨a, b, c, d, rfl⟩
      rw [write_eq]
      cases hg : stub.getErr k with
      | some e =>
        simp only [ne_eq, reduceCtorEq, not_false_eq_true, true_iff]
        exact Or.inr ⟨k, p, t, ts, rfl, Or.inl (by rw [hg]; simp)⟩
      | none =>
        cases hp : stub.putErr k (Marshal (some [⟨p, t, ts⟩])) with
        | some e =>
          simp only [ne_eq, reduceCtorEq, not_false_eq_true, true_iff]
          exact Or.inr ⟨k, p, t, ts, rfl, Or.inr (by rw [hp]; simp)⟩
        | none =>
          simp only [ne_eq, not_true_eq_false, false_iff]
          rintro (h | ⟨k2, p2, t2, ts2, heq, h⟩)
          · exact h rfl
          · simp only [List.cons.injEq, and_true] at heq
            obtain ⟨rfl, rfl, rfl, rfl⟩ := heq
            rcases h with h | h
            · exact h hg
            · exact h hp
    · rw [write_arity stub args hlen]
      simp only [ne_eq, reduceCtorEq, not_false_eq_true, true_iff]
      exact Or.inl hlen
  · rintro k p t ts rfl hg hp
    have hw : (write stub [k, p, t, ts]).err = none := by
      rw [write_eq, hg]; simp only [hp]
    obtain ⟨_, _, hstate, _, _⟩ := write_ok stub k p t ts hw
    refine ⟨hw, ?_⟩
    intro h1 h2 h3
    have hval : entriesValid (some [⟨p, t, ts⟩]) = true := by
      simp [entriesValid, entryValid, h1, h2, h3]
    exact ⟨Marshal (some [⟨p, t, ts⟩]), [⟨p, t, ts⟩], by rw [hstate]; simp,
      Unmarshal_Marshal _ hval, by simp, rfl⟩

/-- C13, amended, on an empty place identifier, a non-numeric temperature and a
malformed timestamp. -/
theorem write_errors_iff_witness :
    freshStub.getErr (ascii "P1") = none ∧
    freshStub.putErr (ascii "P1") (Marshal (some [⟨[], ascii "hot", ascii "yesterday?"⟩])) = none ∧
    utf8Valid [] = true ∧ utf8Valid (ascii "hot") = true ∧
    utf8Valid (ascii "yesterday?") = true ∧
    (Invoke freshStub (ascii "write") [ascii "P1", [], ascii "hot", ascii "yesterday?"]).err
      = none ∧
    ∃ v l, (Invoke freshStub (ascii "write")
        [ascii "P1", [], ascii "hot", ascii "yesterday?"]).stub.state (ascii "P1") = some v ∧
      Unmarshal v = some (some l) ∧ l ≠ [] ∧
      l.getLast? = some ⟨[], ascii "hot", ascii "yesterday?"⟩ :=
  ⟨rfl, rfl, by decide, by decide, by decide,
    ((write_errors_iff freshStub [ascii "P1", [], ascii "hot", ascii "yesterday?"]).2
      (ascii "P1") [] (ascii "hot") (ascii "yesterday?") rfl rfl rfl).1,
    ((write_errors_iff freshStub [ascii "P1", [], ascii "hot", ascii "yesterday?"]).2
      (ascii "P1") [] (ascii "hot") (ascii "yesterday?") rfl rfl rfl).2
      (by decide) (by decide) (by decide)⟩

/-! ## C14: a stored value that is not a record collection -/

/-- C14. When the bytes stored at `k` are present and are not the encoding of a
collection, and the ledger's get and put succeed, `Invoke` of `write` on
`[k, p, t, ts]` returns no error: the call to `json.Unmarshal` returns an error that
is dropped and leaves the nil slice, and the stored value is replaced by the encoding
of the one-entry collection `[{p, t, ts}]`, which is not the old value. -/
theorem write_over_undecodable_value (stub : ChaincodeStub) (k p t ts data : List Nat)
    (hs : stub.state k = some data) (hbad : Unmarshal data = none)
    (hget : stub.getErr k = none)
    (hput : stub.putErr k (Marshal (some [⟨p, t, ts⟩])) = none) :
    (Invoke stub (ascii "write") [k, p, t, ts]).err = none ∧
    (UnmarshalByValue data none).2 ≠ none ∧ (UnmarshalByValue data none).1 = none ∧
    (Invoke stub (ascii "write") [k, p, t, ts]).stub.state k
      = some (Marshal (some [⟨p, t, ts⟩])) ∧
    (Invoke stub (ascii "write") [k, p, t, ts]).stub.state k ≠ stub.state k := by
  rw [Invoke_write]
  have hw : (write stub [k, p, t, ts]).err = none := by
    rw [write_eq, hget]; simp only [hput]
  obtain ⟨_, _, hstate, _, _⟩ := write_ok stub k p t ts hw
  have hk : (write stub [k, p, t, ts]).stub.state k = some (Marshal (some [⟨p, t, ts⟩])) := by
    rw [hstate]; simp
  refine ⟨hw, by simp [UnmarshalByValue], rfl, hk, ?_⟩
  rw [hk, hs]
  intro h
  obtain ⟨c1, hc1, _, _⟩ := Unmarshal_Marshal_defined (some [⟨p, t, ts⟩])
  rw [Option.some.inj h, hbad] at hc1
  exact absurd hc1 (by simp)

/-- C14 on the bootstrap value: `init(["seed"])`, then a write to `hello_world`. -/
theorem write_over_undecodable_value_witness :
    (Init freshStub [] [ascii "seed"]).stub.state (ascii "hello_world") = some (ascii "seed") ∧
    Unmarshal (ascii "seed") = none ∧
    (Invoke (Init freshStub [] [ascii "seed"]).stub (ascii "write")
      [ascii "hello_world", ascii "Loc1", ascii "21.5", ascii "t0"]).err = none ∧
    (Invoke (Init freshStub [] [ascii "seed"]).stub (ascii "write")
      [ascii "hello_world", ascii "Loc1", ascii "21.5", ascii "t0"]).stub.state
        (ascii "hello_world")
      = some (Marshal (some [⟨ascii "Loc1", ascii "21.5", ascii "t0"⟩])) :=
  ⟨by decide, by decide,
    (write_over_undecodable_value (Init freshStub [] [ascii "seed"]).stub (ascii "hello_world")
      (ascii "Loc1") (ascii "21.5") (ascii "t0") (ascii "seed") (by decide) (by decide)
      rfl rfl).1,
    (write_over_undecodable_value (Init freshStub [] [ascii "seed"]).stub (ascii "hello_world")
      (ascii "Loc1") (ascii "21.5") (ascii "t0") (ascii "seed") (by decide) (by decide)
      rfl rfl).2.2.2.1⟩

/-! ## C15: the keys a mutating operation leaves alone -/

/-- C15. Frame of the mutating operations on the world state: `write` on key `k`,
called directly or through `Invoke`, successful or not, leaves the value of every
key other than `k` as it was; `Init`, called directly or through `Invoke`, leaves the
value of every key other than `hello_world` as it was; and a `write` on a key other
than `hello_world` leaves the bootstrap value as it was. -/
theorem mutating_operations_frame (stub : ChaincodeStub) (f v k p t ts k2 : List Nat) :
    (k2 ≠ k → (write stub [k, p, t, ts]).stub.state k2 = stub.state k2) ∧
    (k2 ≠ k → (Invoke stub (ascii "write") [k, p, t, ts]).stub.state k2 = stub.state k2) ∧
    (k2 ≠ ascii "hello_world" → (Init stub f [v]).stub.state k2 = stub.state k2) ∧
    (k2 ≠ ascii "hello_world" →
      (Invoke stub (ascii "init") [v]).stub.state k2 = stub.state k2) ∧
    (k ≠ ascii "hello_world" →
      (Invoke stub (ascii "write") [k, p, t, ts]).stub.state (ascii "hello_world")
        = stub.state (ascii "hello_world")) := by
  have hW : ∀ x : List Nat, x ≠ k → (write stub [k, p, t, ts]).stub.state x = stub.state x := by
    intro x hx
    rw [write_eq]
    cases hg : stub.getErr k with
    | some e => rfl
    | none =>
      cases hp : stub.putErr k (Marshal (some [⟨p, t, ts⟩])) with
      | some e => rfl
      | none => simp [hx]
  have hI : ∀ g : List Nat, k2 ≠ ascii "hello_world" →
      (Init stub g [v]).stub.state k2 = stub.state k2 := by
    intro g hx
    rw [Init_eq]
    cases hp : stub.putErr (ascii "hello_world") v with
    | some e => rfl
    | none => simp [hx]
  rw [Invoke_write, Invoke_init]
  exact ⟨hW k2, hW k2, hI f, hI _, fun h => hW _ (Ne.symm h)⟩

/-- C15 on a ledger holding the bootstrap value and a record: a write to `P1` leaves
`hello_world` alone, and an `init` leaves `P1` alone. -/
theorem mutating_operations_frame_witness :
    ascii "P1" ≠ ascii "hello_world" ∧
    (Invoke (Init freshStub [] [ascii "seed"]).stub (ascii "write")
      [ascii "P1", ascii "Loc1", ascii "21.5", ascii "t0"]).stub.state (ascii "hello_world")
      = (Init freshStub [] [ascii "seed"]).stub.state (ascii "hello_world") ∧
    (Invoke (write freshStub [ascii "P1", ascii "Loc1", ascii "21.5", ascii "t0"]).stub
      (ascii "init") [ascii "seed"]).stub.state (ascii "P1")
      = (write freshStub [ascii "P1", ascii "Loc1", ascii "21.5", ascii "t0"]).stub.state
        (ascii "P1") :=
  ⟨by decide,
    (mutating_operations_frame (Init freshStub [] [ascii "seed"]).stub [] (ascii "seed")
      (ascii "P1") (ascii "Loc1") (ascii "21.5") (ascii "t0") (ascii "hello_world")).2.2.2.2
      (by decide),
    (mutating_operations_frame
      (write freshStub [ascii "P1", ascii "Loc1", ascii "21.5", ascii "t0"]).stub [] (ascii "seed")
      (ascii "P1") (ascii "Loc1") (ascii "21.5") (ascii "t0") (ascii "P1")).2.2.2.1
      (by decide)⟩

/-! ## C16: the stored value depends on the arguments only -/

/-- C16. The value `write` stores is a function of its arguments alone: whatever the
stored bytes, the slice handed to `json.Unmarshal` by value is still nil after the
call; from any two states in which `Invoke` of `write` on `[k, p, t, ts]` succeeds,
the value stored at `k` afterwards is the same; and `write` is idempotent: after a
successful write, the same write succeeds again and leaves the same world state. -/
theorem write_value_depends_on_arguments_only (s1 s2 : ChaincodeStub) (k p t ts : List Nat)
    (h1 : (Invoke s1 (ascii "write") [k, p, t, ts]).err = none)
    (h2 : (Invoke s2 (ascii "write") [k, p, t, ts]).err = none) :
    (∀ data : List Nat, (UnmarshalByValue data none).1 = none) ∧
    (Invoke s1 (ascii "write") [k, p, t, ts]).stub.state k
      = (Invoke s2 (ascii "write") [k, p, t, ts]).stub.state k ∧
    (Invoke (Invoke s1 (ascii "write") [k, p, t, ts]).stub (ascii "write") [k, p, t, ts]).err
      = none ∧
    (Invoke (Invoke s1 (ascii "write") [k, p, t, ts]).stub (ascii "write")
      [k, p, t, ts]).stub.state
      = (Invoke s1 (ascii "write") [k, p, t, ts]).stub.state := by
  simp only [Invoke_write] at h1 h2 ⊢
  obtain ⟨hg1, hp1, hst1, hge1, hpe1⟩ := write_ok s1 k p t ts h1
  obtain ⟨_, _, hst2, _, _⟩ := write_ok s2 k p t ts h2
  have hw : (write (write s1 [k, p, t, ts]).stub [k, p, t, ts]).err = none := by
    rw [write_eq (write s1 [k, p, t, ts]).stub, hge1, hpe1, hg1]
    simp only [hp1]
  obtain ⟨_, _, hst3, _, _⟩ := write_ok (write s1 [k, p, t, ts]).stub k p t ts hw
  refine ⟨fun _ => rfl, by rw [hst1, hst2]; simp, hw, ?_⟩
  rw [hst3, hst1]
  funext x
  by_cases hx : x = k <;> simp [hx]

/-- C16 from a ledger without the key and from a ledger holding the bootstrap value
under it. -/
theorem write_value_depends_on_arguments_only_witness :
    (Invoke freshStub (ascii "write")
      [ascii "hello_world", ascii "Loc1", ascii "21.5", ascii "t0"]).err = none ∧
    (Invoke (Init freshStub [] [ascii "seed"]).stub (ascii "write")
      [ascii "hello_world", ascii "Loc1", ascii "21.5", ascii "t0"]).err = none ∧
    (Invoke freshStub (ascii "write")
      [ascii "hello_world", ascii "Loc1", ascii "21.5", ascii "t0"]).stub.state
        (ascii "hello_world")
      = (Invoke (Init freshStub [] [ascii "seed"]).stub (ascii "write")
      [ascii "hello_world", ascii "Loc1", ascii "21.5", ascii "t0"]).stub.state
        (ascii "hello_world") :=
  ⟨by decide, by decide,
    (write_value_depends_on_arguments_only freshStub (Init freshStub [] [ascii "seed"]).stub
      (ascii "hello_world") (ascii "Loc1") (ascii "21.5") (ascii "t0")
      (by decide) (by decide)).2.1⟩

end Chaincode
